import Mathlib

/-!
Verification of the Fantasy Court inference pipeline (backend/court/inference).

This file gives a shallow embedding of the orchestration core of the
pipeline: docket-number generation and case extraction
(create_cases.py), citation extraction and linking (create_citations.py),
the opinion-drafting agent loop and its sequential-batch driver
(create_opinions.py), and segment detection selection (create_segments.py).
Strings produced by the Python code are modelled as lists of characters;
database sessions are modelled as explicit record values threaded through
the functions; LLM provider behaviour is modelled as an explicit function
from iteration number to the returned content blocks.
-/

namespace FantasyCourt

/-! ### Decimal rendering

Python renders numbers in decimal via `str(n)`, `str(n).zfill(4)` and
`strftime("%y")`.  We model the decimal rendering of a natural number as a
list of characters, computed by a structurally recursive function (the
upper argument of `decimalDigitsAux` is fuel, always at least the number
being rendered), and relate it to `Nat.digits` for the proofs. -/

def digitChar (d : Nat) : Char := Char.ofNat (48 + d)

def decimalDigitsAux : Nat → Nat → List Char
  | _, 0 => []
  | 0, _ + 1 => []
  | fuel + 1, n + 1 =>
    decimalDigitsAux fuel ((n + 1) / 10) ++ [digitChar ((n + 1) % 10)]

/-- Decimal rendering of a natural number, as Python `str` produces it. -/
def decimalDigits (n : Nat) : List Char :=
  if n = 0 then ['0'] else decimalDigitsAux n n

/-- Python `str.zfill`: left-pad with zeros to the given width. -/
def zfill (w : Nat) (l : List Char) : List Char :=
  List.replicate (w - l.length) '0' ++ l


/-! ### Docket numbers (create_cases.py)

A `PodcastEpisode` is modelled by the two attributes the docket scheme
reads: its integer primary key and the year of its publication date.
`generate_docket_number` mirrors the source:
the `strftime("%y")` year suffix is the publication year modulo 100
rendered with a leading zero, the episode id is `str(id).zfill(4)`, and
the case number is rendered bare, joined by hyphens.  The content fields
of an extracted case (fact summary and so on) are irrelevant to the
claims and are represented by a single opaque payload string. -/

structure PodcastEpisode where
  id : Nat
  pubYear : Nat
  deriving DecidableEq

def generate_docket_number (pubYear episodeId caseNumber : Nat) : List Char :=
  zfill 2 (decimalDigits (pubYear % 100)) ++
    '-' :: (zfill 4 (decimalDigits episodeId) ++ '-' :: decimalDigits caseNumber)

/-- The scheme as the claim words it: the last two digits of the
publication year, a hyphen, the episode id zero-padded to 4 digits, a
hyphen, and the 1-based sequence number.  The year part is written here
literally as the tens digit followed by the units digit of the year. -/
def docketNumberSpecFormat (pubYear episodeId caseNumber : Nat) : List Char :=
  [digitChar (pubYear / 10 % 10), digitChar (pubYear % 10)] ++
    '-' :: (zfill 4 (decimalDigits episodeId) ++ '-' :: decimalDigits caseNumber)

structure CaseExtraction where
  factSummary : String
  deriving DecidableEq

structure CaseRow where
  episodeId : Nat
  segmentId : Nat
  docketNumber : List Char
  factSummary : String
  deriving DecidableEq

/-- The docket-assignment loop of extract_fantasy_court_cases: Python
enumerates the extracted cases starting at 1 and assigns each one a
docket number from the episode and its position. -/
def extract_fantasy_court_cases_aux (episode : PodcastEpisode) (segmentId : Nat) :
    Nat → List CaseExtraction → List CaseRow
  | _, [] => []
  | i, ex :: rest =>
    { episodeId := episode.id, segmentId := segmentId,
      docketNumber := generate_docket_number episode.pubYear episode.id i,
      factSummary := ex.factSummary } ::
      extract_fantasy_court_cases_aux episode segmentId (i + 1) rest

def extract_fantasy_court_cases (episode : PodcastEpisode) (segmentId : Nat)
    (extractions : List CaseExtraction) : List CaseRow :=
  extract_fantasy_court_cases_aux episode segmentId 1 extractions


/-! ### Citation extraction and linking (create_citations.py)

The opinion body HTML is handled by a structural parser; the parsed
document tree is therefore the input of the model (parsing is performed
by the external BeautifulSoup collaborator).  `citeDockets` collects, in
document order, the value of the data-cite-docket attribute of every
span element, skipping empty values exactly as the Python truthiness
check does, and `extract_citations` deduplicates the collected values as
Python list(set(...)) does.  The citation tables are explicit record
values; a database query before insert is a lookup in those lists. -/

mutual
inductive Html where
  | text (s : String)
  | element (tag : String) (attrs : List (String × String)) (children : HtmlForest)
inductive HtmlForest where
  | nil
  | cons (head : Html) (tail : HtmlForest)
end

mutual
def citeDockets : Html → List String
  | .text _ => []
  | .element tag attrs children =>
    (if tag = "span" then
      match attrs.find? (fun kv => kv.fst == "data-cite-docket") with
      | some kv => if kv.snd == "" then [] else [kv.snd]
      | none => []
    else []) ++ citeDocketsForest children
def citeDocketsForest : HtmlForest → List String
  | .nil => []
  | .cons h t => citeDockets h ++ citeDocketsForest t
end

def extract_citations (doc : Html) : List String :=
  (citeDockets doc).dedup

structure FCCase where
  id : Nat
  docketNumber : String
  deriving DecidableEq

structure CaseCitation where
  citingCaseId : Nat
  citedCaseId : Nat
  deriving DecidableEq

structure CitationsDb where
  cases : List FCCase
  citations : List CaseCitation
  deriving DecidableEq

structure Opinion where
  id : Nat
  caseId : Nat
  opinionBody : Html

/-- Lookup of a cited case by docket number, modelling the
docket_number IN (...) query and the docket-to-case map. -/
def resolveDocket (db : CitationsDb) (d : String) : Option FCCase :=
  db.cases.find? (fun c => c.docketNumber == d)

/-- Query-before-insert on the ordered (citing, cited) pair. -/
def citationExists (db : CitationsDb) (citingId citedId : Nat) : Bool :=
  db.citations.any (fun e => e.citingCaseId == citingId && e.citedCaseId == citedId)

/-- The per-docket loop of process_opinion_citations: an unresolved
docket is skipped with a warning, an existing ordered pair is skipped,
otherwise a new citation row is added.  Returns the updated session and
the (created, skipped) counters. -/
def linkCitations (citingId : Nat) : CitationsDb → List String → CitationsDb × Nat × Nat
  | db, [] => (db, 0, 0)
  | db, d :: rest =>
    match resolveDocket db d with
    | none =>
      let r := linkCitations citingId db rest
      (r.1, r.2.1, r.2.2 + 1)
    | some cited =>
      if citationExists db citingId cited.id then
        let r := linkCitations citingId db rest
        (r.1, r.2.1, r.2.2 + 1)
      else
        let r := linkCitations citingId
          { db with citations := db.citations ++ [⟨citingId, cited.id⟩] } rest
        (r.1, r.2.1 + 1, r.2.2)

def process_opinion_citations (db : CitationsDb) (op : Opinion) :
    CitationsDb × Nat × Nat :=
  linkCitations op.caseId db (extract_citations op.opinionBody)

/-- The main loop of create_citations.py: processes every opinion and
sums the created and skipped counters. -/
def citationsMain : CitationsDb → List Opinion → CitationsDb × Nat × Nat
  | db, [] => (db, 0, 0)
  | db, op :: rest =>
    let r := process_opinion_citations db op
    let rs := citationsMain r.1 rest
    (rs.1, r.2.1 + rs.2.1, r.2.2 + rs.2.2)

/-- Docket-number format validation as the claim words it: a valid
identifier is one that the docket scheme can produce. -/
def isValidDocketFormat (s : String) : Prop :=
  ∃ y e n : Nat, s.data = generate_docket_number y e n

/-- Concrete opinion body for the C8 counterexample: one citation span
whose identifier does not follow the docket-number format. -/
def invalidCitationDoc : Html :=
  Html.element "p" []
    (.cons (Html.element "span" [("data-cite-docket", "not-a-docket")] .nil) .nil)


/-! ### The opinion drafting agent loop (create_opinions.py)

run_opinion_drafting_agent is a bounded multi-turn loop.  The provider
is modelled as a function from the iteration number to the list of
content blocks of that model turn.  For the cache bookkeeping the
message history is modelled explicitly: each message is a role together
with a list of blocks, and each block records whether it is a plain dict
block (user text and tool results; only these can carry or lose a
cache_control marker) and whether it currently carries one.  Assistant
turns hold provider objects, not dicts, and never carry markers.  The
model returns both the loop outcome with the number of iterations run
and the list of message histories passed to the provider calls. -/

inductive ContentBlock where
  | thinking
  | text (s : String)
  | toolUse (name : String)
  deriving DecidableEq

structure MsgBlock where
  isDict : Bool
  cached : Bool
  deriving DecidableEq

structure Message where
  role : String
  blocks : List MsgBlock
  deriving DecidableEq

inductive AgentOutcome where
  | submitted
  | protocolErrorText
  | protocolErrorNoContent
  | maxIterationsError
  deriving DecidableEq

structure AgentRun where
  outcome : AgentOutcome
  iterationsRun : Nat
  deriving DecidableEq

def hasToolUse : ContentBlock → Bool
  | .toolUse _ => true
  | _ => false

def isTextBlock : ContentBlock → Bool
  | .text _ => true
  | _ => false

/-- Python helper _remove_cache_controls: strips cache_control from
every dict content block of every message, in place. -/
def remove_cache_controls (messages : List Message) : List Message :=
  messages.map (fun m =>
    { m with blocks :=
        (m.blocks.map (fun b => if b.isDict then { b with cached := false } else b)) })

/-- The assistant message appended after each model turn: its content
blocks are provider objects, not dicts, and carry no markers. -/
def assistantMessage (turn : List ContentBlock) : Message :=
  { role := "assistant", blocks := turn.map (fun _ => ⟨false, false⟩) }

/-- The tool dispatch loop: list_past_opinions and read_past_opinion
append a tool_result dict block; submit_opinion ends the scan with the
submitted flag; any other name appends nothing. -/
def processToolCalls : List ContentBlock → List MsgBlock × Bool
  | [] => ([], false)
  | .toolUse n :: rest =>
    if n = "submit_opinion" then ([], true)
    else if n = "list_past_opinions" ∨ n = "read_past_opinion" then
      let r := processToolCalls rest
      (⟨true, false⟩ :: r.1, r.2)
    else processToolCalls rest
  | _ :: rest => processToolCalls rest

/-- Python tool_results[-1]["cache_control"] = ...: mark the last block. -/
def markLastCached : List MsgBlock → List MsgBlock
  | [] => []
  | [b] => [{ b with cached := true }]
  | b :: rest => b :: markLastCached rest

/-- The agent loop.  The fuel argument is max_iterations minus the
current iteration counter; each level makes one provider call. -/
def run_opinion_drafting_agent_aux (turns : Nat → List ContentBlock) :
    Nat → Nat → List Message → AgentRun × List (List Message)
  | 0, iteration, _ => (⟨.maxIterationsError, iteration⟩, [])
  | fuel + 1, iteration, messages =>
    let turn := turns iteration
    let toolUses := turn.filter hasToolUse
    if toolUses.isEmpty then
      if (turn.filter isTextBlock).isEmpty then
        (⟨.protocolErrorNoContent, iteration + 1⟩, [messages])
      else
        (⟨.protocolErrorText, iteration + 1⟩, [messages])
    else
      let pr := processToolCalls toolUses
      if pr.2 then
        (⟨.submitted, iteration + 1⟩, [messages])
      else
        let messagesNext :=
          if pr.1.isEmpty then
            (messages ++ [assistantMessage turn]) ++ [⟨"user", []⟩]
          else
            remove_cache_controls (messages ++ [assistantMessage turn])
              ++ [⟨"user", markLastCached pr.1⟩]
        let r := run_opinion_drafting_agent_aux turns fuel (iteration + 1) messagesNext
        (r.1, messages :: r.2)

/-- The initial message history: one user message whose single text
block carries a cache_control marker. -/
def initialMessages : List Message := [⟨"user", [⟨true, true⟩]⟩]

def run_opinion_drafting_agent (turns : Nat → List ContentBlock) :
    AgentRun × List (List Message) :=
  run_opinion_drafting_agent_aux turns 20 0 initialMessages

/-- Number of blocks in the history carrying a cache_control marker. -/
def cachedBlockCount (messages : List Message) : Nat :=
  (messages.map (fun m => (m.blocks.filter (fun b => b.cached)).length)).sum

def turnHasToolUse (turn : List ContentBlock) : Bool := turn.any hasToolUse

def turnSubmits (turn : List ContentBlock) : Bool :=
  turn.any (fun b => b == ContentBlock.toolUse "submit_opinion")

/-- A model turn on which the loop keeps going: it contains a tool call
and none of its tool calls is the terminal submit_opinion. -/
def ContinuesAt (turns : Nat → List ContentBlock) (j : Nat) : Prop :=
  turnHasToolUse (turns j) = true ∧ turnSubmits (turns j) = false


/-! ### Sequential-batch opinion drafting (process_cases_batch)

process_cases_batch slices the pending cases into consecutive batches of
commit_batch_size, runs each batch concurrently against the session as
committed at the start of the batch, and commits the successful opinions
of the batch before the next batch starts.  The precedent tools read
only rows committed to the session, so what an agent invocation can
observe is exactly the committed table at its batch start; the model
records that table per case in `observations`.  A case either succeeds
(returning the opinion row for it) or fails with a caught exception. -/

structure CaseUnit where
  id : Nat
  deriving DecidableEq

structure OpinionRow where
  caseId : Nat
  deriving DecidableEq

/-- Python range(0, len(cases), commit_batch_size) slicing. -/
def chunkList {α : Type} (size : Nat) : List α → List (List α)
  | [] => []
  | x :: rest =>
    (x :: rest.take (size - 1)) :: chunkList size (rest.drop (size - 1))
termination_by l => l.length
decreasing_by
  simp only [List.length_drop, List.length_cons]
  omega

/-- The opinion rows committed for the successful cases of a slice. -/
def committedRows (succeeds : CaseUnit → Bool) (cases : List CaseUnit) :
    List OpinionRow :=
  (cases.filter (fun c => succeeds c)).map (fun c => ⟨c.id⟩)

structure BatchState where
  db : List OpinionRow
  observations : List (Nat × List OpinionRow)
  created : Nat
  failed : Nat
  deriving DecidableEq

/-- One sequential batch: every case of the batch observes the session
as committed at batch start; the batch's successful opinions are then
committed together and the failures counted. -/
def processOneBatch (succeeds : CaseUnit → Bool) (st : BatchState)
    (batch : List CaseUnit) : BatchState :=
  { db := st.db ++ committedRows succeeds batch,
    observations := st.observations ++ (batch.map (fun c => (c.id, st.db))),
    created := st.created + (committedRows succeeds batch).length,
    failed := st.failed + (batch.filter (fun c => !(succeeds c))).length }

def process_cases_batch (cases : List CaseUnit) (succeeds : CaseUnit → Bool)
    (commitBatchSize : Nat) (db0 : List OpinionRow) : BatchState :=
  (chunkList commitBatchSize cases).foldl (processOneBatch succeeds)
    { db := db0, observations := [], created := 0, failed := 0 }

/-- The observation table the sequential loop produces: each batch sees
the table as of its start, and the table then grows by the committed
rows of the batch. -/
def batchObservations (succeeds : CaseUnit → Bool) (db : List OpinionRow) :
    List (List CaseUnit) → List (Nat × List OpinionRow)
  | [] => []
  | batch :: rest =>
    batch.map (fun c => (c.id, db))
      ++ batchObservations succeeds (db ++ committedRows succeeds batch) rest

/-! ### Case extraction over segments (create_cases.py)

The Work Selector of the case-extraction stage offers segments that have
a transcript, no case row, and no found_no_cases flag.  (The flag is
referenced by create_cases.py as a column of FantasyCourtSegment; the
models.py in the tree does not declare it, so it is modelled here as the
orchestration code uses it: a boolean on the segment row, initially
false.)  process_segments_batch buffers successful extractions and
commits them in groups of commit_batch_size, flags segments in which no
case was found, counts failures, and returns the created and processed
counts. -/

structure SegmentRow where
  id : Nat
  episodeId : Nat
  hasTranscript : Bool
  foundNoCases : Bool
  deriving DecidableEq

structure CasesDb where
  segments : List SegmentRow
  cases : List CaseRow
  deriving DecidableEq

/-- The segment selection query of create_cases main. -/
def selectPendingSegments (db : CasesDb) : List SegmentRow :=
  db.segments.filter (fun s =>
    s.hasTranscript && !(db.cases.any (fun c => c.segmentId == s.id))
      && !s.foundNoCases)

def segFailed {α : Type} (results : SegmentRow → Except Unit α)
    (s : SegmentRow) : Bool :=
  match results s with
  | .error _ => true
  | .ok _ => false

def segNoCases (results : SegmentRow → Except Unit (List CaseRow))
    (s : SegmentRow) : Bool :=
  match results s with
  | .ok [] => true
  | _ => false

/-- The case rows produced by the successful extractions, in segment
order. -/
def successRows (results : SegmentRow → Except Unit (List CaseRow))
    (segs : List SegmentRow) : List CaseRow :=
  segs.flatMap (fun s => match results s with | .ok rows => rows | .error _ => [])

structure SegBatchState where
  casesTable : List CaseRow
  pending : List CaseRow
  noCasesSegs : List SegmentRow
  created : Nat
  failed : Nat
  deriving DecidableEq

/-- The per-segment loop of process_segments_batch: failures are
counted, empty extractions are remembered for flagging, case rows are
buffered and committed whenever the buffer reaches commit_batch_size. -/
def segLoop (results : SegmentRow → Except Unit (List CaseRow))
    (commitBatchSize : Nat) : List SegmentRow → SegBatchState → SegBatchState
  | [], st => st
  | s :: rest, st =>
    match results s with
    | .error _ =>
      segLoop results commitBatchSize rest { st with failed := st.failed + 1 }
    | .ok [] =>
      segLoop results commitBatchSize rest
        { st with noCasesSegs := st.noCasesSegs ++ [s] }
    | .ok (r :: rs) =>
      let pending := st.pending ++ r :: rs
      if commitBatchSize ≤ pending.length then
        segLoop results commitBatchSize rest
          { st with casesTable := st.casesTable ++ pending,
                    created := st.created + pending.length,
                    pending := [] }
      else
        segLoop results commitBatchSize rest { st with pending := pending }

/-- The found_no_cases flag update at the end of the run. -/
def markNoCases (noCasesSegs : List SegmentRow) (segments : List SegmentRow) :
    List SegmentRow :=
  segments.map (fun s =>
    if noCasesSegs.any (fun t => t.id == s.id) then { s with foundNoCases := true }
    else s)

/-- process_segments_batch: returns the updated session together with
the (created, processed, failed) counts. -/
def process_segments_batch (db : CasesDb) (segs : List SegmentRow)
    (results : SegmentRow → Except Unit (List CaseRow))
    (commitBatchSize : Nat) : CasesDb × Nat × Nat × Nat :=
  let st := segLoop results commitBatchSize segs ⟨db.cases, [], [], 0, 0⟩
  (⟨markNoCases st.noCasesSegs db.segments, st.casesTable ++ st.pending⟩,
   if st.pending.isEmpty && st.noCasesSegs.isEmpty then st.created
   else st.created + st.pending.length,
   segs.length, st.failed)

/-! ### Segment detection over episodes (create_segments.py)

The Work Selector of the segment-detection stage offers episodes with no
segment row.  Detection either returns a segment row for the episode or
nothing; an episode in which no Fantasy Court segment was found and an
episode whose processing failed both leave no trace in the session. -/

structure EpisodeRow where
  id : Nat
  deriving DecidableEq

structure SegmentsDb where
  episodes : List EpisodeRow
  segments : List SegmentRow
  deriving DecidableEq

/-- The episode selection query of create_segments main. -/
def selectPendingEpisodes (db : SegmentsDb) : List EpisodeRow :=
  db.episodes.filter (fun e => !(db.segments.any (fun s => s.episodeId == e.id)))

/-- process_episodes_batch: the detected segments are bulk inserted;
episodes whose detection returned nothing are not recorded anywhere. -/
def process_episodes_batch (db : SegmentsDb) (eps : List EpisodeRow)
    (results : EpisodeRow → Option SegmentRow) : SegmentsDb × Nat × Nat :=
  (⟨db.episodes, db.segments ++ eps.filterMap results⟩,
   (eps.filterMap results).length, eps.length)

/-! ### Per-unit wrapping in the three stage drivers (process_one)

The behaviour of one underlying provider invocation is modelled by its
wall-clock duration and its result, or by hanging forever.  The model
of each process_one returns none when process_one itself never returns,
some (.error ()) for a caught per-unit failure, and some (.ok a) for a
success. -/

inductive CallBehavior (α : Type) where
  | completes (durationS : Nat) (result : Except Unit α)
  | hangs

/-- create_opinions process_one: the agent call is wrapped in
asyncio.wait_for with timeout 600 and a catch-all except, so expiry of
the timeout or any error becomes a per-unit failure. -/
def opinionsProcessOne (behavior : CallBehavior OpinionRow) :
    Option (Except Unit OpinionRow) :=
  match behavior with
  | .hangs => some (.error ())
  | .completes d r => if 600 < d then some (.error ()) else some r

/-- create_cases process_one: a catch-all except converts errors to a
per-unit failure, but there is no timeout wrapper around the await. -/
def casesProcessOne (behavior : CallBehavior (List CaseRow)) :
    Option (Except Unit (List CaseRow)) :=
  match behavior with
  | .hangs => none
  | .completes _ r => some r

/-- create_segments process_one: same shape as the cases stage, with no
timeout wrapper around the await. -/
def segmentsProcessOne (behavior : CallBehavior SegmentRow) :
    Option (Except Unit SegmentRow) :=
  match behavior with
  | .hangs => none
  | .completes _ r => some r

/-! ### The opinion drafting entry point (create_opinions main) -/

inductive OpinionsMainResult where
  | indexError
  | noCasesMessage
  | proceeded (count : Nat)
  deriving DecidableEq

/-- The region of create_opinions main around the emptiness check: the
status line indexes cases[0] while formatting, before the emptiness
check that would print the no-cases message and return. -/
def opinionsMainEmptyCheck {α : Type} (cases : List α) : OpinionsMainResult :=
  match cases.head? with
  | none => .indexError
  | some _ => if cases.isEmpty then .noCasesMessage else .proceeded cases.length

/-! ### Lemmas and claim theorems -/

theorem decimalDigitsAux_eq (fuel n : Nat) (h : n ≤ fuel) :
    decimalDigitsAux fuel n = ((Nat.digits 10 n).map digitChar).reverse := by
  induction fuel generalizing n with
  | zero =>
    interval_cases n
    simp [decimalDigitsAux]
  | succ fuel ih =>
    match n with
    | 0 => simp [decimalDigitsAux]
    | n + 1 =>
      have hdiv : (n + 1) / 10 ≤ fuel := by
        have := Nat.div_lt_self (Nat.succ_pos n) (by norm_num : (1 : Nat) < 10)
        omega
      rw [decimalDigitsAux, ih _ hdiv,
        Nat.digits_def' (by norm_num : (1 : Nat) < 10) (Nat.succ_pos n)]
      simp

theorem decimalDigits_eq (n : Nat) (hn : n ≠ 0) :
    decimalDigits n = ((Nat.digits 10 n).map digitChar).reverse := by
  rw [decimalDigits, if_neg hn, decimalDigitsAux_eq n n le_rfl]

theorem digitChar_toNat {d : Nat} (hd : d < 10) : (digitChar d).toNat = 48 + d := by
  interval_cases d <;> decide

theorem digitChar_inj {d₁ d₂ : Nat} (h₁ : d₁ < 10) (h₂ : d₂ < 10)
    (h : digitChar d₁ = digitChar d₂) : d₁ = d₂ := by
  have := congrArg Char.toNat h
  rw [digitChar_toNat h₁, digitChar_toNat h₂] at this
  omega

theorem mem_decimalDigits_toNat {n : Nat} {c : Char} (hc : c ∈ decimalDigits n) :
    48 ≤ c.toNat ∧ c.toNat ≤ 57 := by
  by_cases hn : n = 0
  · subst hn
    have h0 : decimalDigits 0 = ['0'] := by simp [decimalDigits]
    rw [h0, List.mem_singleton] at hc
    subst hc
    decide
  · rw [decimalDigits_eq n hn, List.mem_reverse, List.mem_map] at hc
    obtain ⟨d, hd, rfl⟩ := hc
    have hdlt : d < 10 := Nat.digits_lt_base (by norm_num) hd
    rw [digitChar_toNat hdlt]
    omega

theorem decimalDigits_ne_nil (n : Nat) : decimalDigits n ≠ [] := by
  by_cases hn : n = 0
  · subst hn; simp [decimalDigits]
  · rw [decimalDigits_eq n hn]
    simp [Nat.digits_ne_nil_iff_ne_zero.mpr hn]

theorem map_digitChar_inj : ∀ l₁ l₂ : List Nat, (∀ d ∈ l₁, d < 10) →
    (∀ d ∈ l₂, d < 10) → l₁.map digitChar = l₂.map digitChar → l₁ = l₂ := by
  intro l₁
  induction l₁ with
  | nil => intro l₂ _ _ h; cases l₂ <;> simp_all
  | cons x xs ih =>
    intro l₂ h₁ h₂ h
    cases l₂ with
    | nil => simp_all
    | cons y ys =>
      simp only [List.map_cons, List.cons.injEq] at h
      have hx := digitChar_inj (h₁ x (by simp)) (h₂ y (by simp)) h.1
      have hxs := ih ys (fun d hd => h₁ d (by simp [hd]))
        (fun d hd => h₂ d (by simp [hd])) h.2
      simp [hx, hxs]

theorem decimalDigits_eq_singleton_zero {b : Nat} (h : decimalDigits b = ['0']) :
    b = 0 := by
  by_contra hb
  rw [decimalDigits_eq b hb] at h
  have h' : (Nat.digits 10 b).map digitChar = ['0'] := by
    have := congrArg List.reverse h
    simpa using this
  have hlen : (Nat.digits 10 b).length = 1 := by
    have := congrArg List.length h'
    simpa using this
  obtain ⟨d, hd⟩ := List.length_eq_one.mp hlen
  rw [hd] at h'
  have hd10 : d < 10 := Nat.digits_lt_base (by norm_num) (by rw [hd]; simp)
  have hd0 : d = 0 := by
    have : digitChar d = '0' := by simpa using h'
    have h0 : digitChar d = digitChar 0 := by simpa [digitChar] using this
    exact digitChar_inj hd10 (by norm_num) h0
  have := Nat.ofDigits_digits 10 b
  rw [hd, hd0] at this
  simp [Nat.ofDigits] at this
  exact hb this.symm

theorem decimalDigits_injective : Function.Injective decimalDigits := by
  intro a b hab
  by_cases ha : a = 0 <;> by_cases hb : b = 0
  · omega
  · subst ha
    have hb0 : b = 0 :=
      decimalDigits_eq_singleton_zero (by rw [← hab]; simp [decimalDigits])
    omega
  · subst hb
    have ha0 : a = 0 :=
      decimalDigits_eq_singleton_zero (by rw [hab]; simp [decimalDigits])
    omega
  · rw [decimalDigits_eq a ha, decimalDigits_eq b hb] at hab
    have hrev := List.reverse_injective hab
    have hmaps : Nat.digits 10 a = Nat.digits 10 b :=
      map_digitChar_inj _ _ (fun d hd => Nat.digits_lt_base (by norm_num) hd)
        (fun d hd => Nat.digits_lt_base (by norm_num) hd) hrev
    exact Nat.digits_inj_iff.mp hmaps

theorem zfill_length (w : Nat) (l : List Char) :
    (zfill w l).length = max w l.length := by
  simp [zfill]
  omega

theorem decimalDigits_length_le_two {m : Nat} (hm : m < 100) :
    (decimalDigits m).length ≤ 2 := by
  by_cases h0 : m = 0
  · subst h0; simp [decimalDigits]
  · rw [decimalDigits_eq m h0]
    simp only [List.length_reverse, List.length_map]
    by_contra hlen
    push_neg at hlen
    have hpow := Nat.base_pow_length_digits_le 10 m (by norm_num) h0
    have h3 : (10 : Nat) ^ 3 ≤ 10 ^ (Nat.digits 10 m).length :=
      Nat.pow_le_pow_right (by norm_num) (by omega)
    norm_num at h3
    omega

theorem mem_zfill_decimal_toNat {w m : Nat} {c : Char}
    (hc : c ∈ zfill w (decimalDigits m)) : 48 ≤ c.toNat ∧ c.toNat ≤ 57 := by
  rw [zfill, List.mem_append] at hc
  rcases hc with hc | hc
  · have := List.eq_of_mem_replicate hc
    subst this
    decide
  · exact mem_decimalDigits_toNat hc

theorem dash_not_mem_zfill_decimal {w m : Nat} : '-' ∉ zfill w (decimalDigits m) := by
  intro h
  have := mem_zfill_decimal_toNat h
  revert this
  decide

theorem append_cons_inj {a : Char} {l₁ l₂ r₁ r₂ : List Char}
    (h₁ : a ∉ l₁) (h₂ : a ∉ l₂) (h : l₁ ++ a :: r₁ = l₂ ++ a :: r₂) :
    l₁ = l₂ ∧ r₁ = r₂ := by
  induction l₁ generalizing l₂ with
  | nil =>
    cases l₂ with
    | nil => simpa using h
    | cons y ys =>
      simp only [List.nil_append, List.cons_append, List.cons.injEq] at h
      exact absurd (h.1 ▸ List.mem_cons_self a ys) (h.1 ▸ h₂)
  | cons x xs ih =>
    cases l₂ with
    | nil =>
      simp only [List.cons_append, List.nil_append, List.cons.injEq] at h
      exact absurd (h.1 ▸ List.mem_cons_self x xs) (h.1.symm ▸ h₁)
    | cons y ys =>
      simp only [List.cons_append, List.cons.injEq] at h
      have := ih (fun hm => h₁ (List.mem_cons_of_mem x hm))
        (fun hm => h₂ (List.mem_cons_of_mem y hm)) h.2
      exact ⟨by rw [h.1, this.1], this.2⟩

theorem dropWhile_replicate_append (p : Char → Bool) (k : Nat) (a : Char)
    (l : List Char) (ha : p a = true) :
    List.dropWhile p (List.replicate k a ++ l) = List.dropWhile p l := by
  induction k with
  | zero => simp
  | succ k ih => simp [List.replicate_succ, List.dropWhile_cons, ha, ih]

theorem decimalDigits_head_ne_zero {m : Nat} (hm : m ≠ 0) :
    ∃ c l, decimalDigits m = c :: l ∧ c ≠ '0' := by
  rw [decimalDigits_eq m hm]
  have hne : Nat.digits 10 m ≠ [] := Nat.digits_ne_nil_iff_ne_zero.mpr hm
  rcases List.eq_nil_or_concat (Nat.digits 10 m) with h | ⟨l', d, h⟩
  · exact absurd h hne
  · refine ⟨digitChar d, (l'.map digitChar).reverse, ?_, ?_⟩
    · rw [h]; simp
    · have hdlast : d ≠ 0 := by
        have hlast := Nat.getLast_digit_ne_zero 10 hm
        have : (Nat.digits 10 m).getLast hne = d := by
          simp [h]
        rwa [this] at hlast
      have hd10 : d < 10 := Nat.digits_lt_base (by norm_num) (by rw [h]; simp)
      intro hc
      have := congrArg Char.toNat hc
      rw [digitChar_toNat hd10] at this
      have h48 : ('0' : Char).toNat = 48 := by decide
      omega

theorem dropWhile_zfill_decimal (w m : Nat) :
    List.dropWhile (fun c => c == '0') (zfill w (decimalDigits m)) =
      if m = 0 then [] else decimalDigits m := by
  rw [zfill, dropWhile_replicate_append _ _ _ _ (by decide)]
  by_cases h0 : m = 0
  · subst h0
    simp [decimalDigits]
  · obtain ⟨c, l, hcl, hc⟩ := decimalDigits_head_ne_zero h0
    rw [if_neg h0, hcl, List.dropWhile_cons]
    simp [hc]

theorem zfill_decimal_inj {w a b : Nat}
    (h : zfill w (decimalDigits a) = zfill w (decimalDigits b)) : a = b := by
  have hdw := congrArg (List.dropWhile (fun c => c == '0')) h
  rw [dropWhile_zfill_decimal, dropWhile_zfill_decimal] at hdw
  by_cases ha : a = 0 <;> by_cases hb : b = 0
  · omega
  · rw [if_pos ha, if_neg hb] at hdw
    exact absurd hdw.symm (decimalDigits_ne_nil b)
  · rw [if_neg ha, if_pos hb] at hdw
    exact absurd hdw (decimalDigits_ne_nil a)
  · rw [if_neg ha, if_neg hb] at hdw
    exact decimalDigits_injective hdw


theorem zfill_two_year (y : Nat) :
    zfill 2 (decimalDigits (y % 100)) =
      [digitChar (y / 10 % 10), digitChar (y % 10)] := by
  have h1 : y / 10 % 10 = y % 100 / 10 := by omega
  have h2 : y % 10 = y % 100 % 10 := by omega
  rw [h1, h2]
  generalize hm : y % 100 = m
  have hm100 : m < 100 := by omega
  by_cases h0 : m = 0
  · subst h0; decide
  · by_cases hlt : m < 10
    · have hdig : Nat.digits 10 m = [m] := by
        rw [Nat.digits_def' (by norm_num : (1 : Nat) < 10) (by omega)]
        have hd : m / 10 = 0 := by omega
        have hmm : m % 10 = m := by omega
        rw [hd, hmm]
        simp
      have hdiv : m / 10 = 0 := by omega
      have hmod : m % 10 = m := by omega
      rw [decimalDigits_eq m h0, hdig, hdiv, hmod]
      simp [zfill, List.replicate]
      decide
    · have hdig : Nat.digits 10 m = [m % 10, m / 10] := by
        rw [Nat.digits_def' (by norm_num : (1 : Nat) < 10) (by omega)]
        congr 1
        rw [Nat.digits_def' (by norm_num : (1 : Nat) < 10) (by omega : 0 < m / 10)]
        have hdd : m / 10 / 10 = 0 := by omega
        have hdm : m / 10 % 10 = m / 10 := by omega
        rw [hdd, hdm]
        simp
      rw [decimalDigits_eq m h0, hdig]
      simp [zfill]

theorem generate_docket_number_inj {y₁ e₁ n₁ y₂ e₂ n₂ : Nat}
    (h : generate_docket_number y₁ e₁ n₁ = generate_docket_number y₂ e₂ n₂) :
    e₁ = e₂ ∧ n₁ = n₂ := by
  rw [generate_docket_number, generate_docket_number] at h
  have hlen : (zfill 2 (decimalDigits (y₁ % 100))).length =
      (zfill 2 (decimalDigits (y₂ % 100))).length := by
    rw [zfill_length, zfill_length]
    have l₁ := decimalDigits_length_le_two (Nat.mod_lt y₁ (by norm_num) : y₁ % 100 < 100)
    have l₂ := decimalDigits_length_le_two (Nat.mod_lt y₂ (by norm_num) : y₂ % 100 < 100)
    omega
  have hsplit := (List.append_inj h hlen).2
  have htail : zfill 4 (decimalDigits e₁) ++ '-' :: decimalDigits n₁ =
      zfill 4 (decimalDigits e₂) ++ '-' :: decimalDigits n₂ :=
    List.cons_injective hsplit
  have := append_cons_inj dash_not_mem_zfill_decimal dash_not_mem_zfill_decimal htail
  exact ⟨zfill_decimal_inj this.1, decimalDigits_injective this.2⟩

theorem extract_fantasy_court_cases_aux_dockets (episode : PodcastEpisode)
    (segmentId : Nat) (exs : List CaseExtraction) (start : Nat) :
    (extract_fantasy_court_cases_aux episode segmentId start exs).map
        CaseRow.docketNumber =
      (List.range exs.length).map
        (fun i => generate_docket_number episode.pubYear episode.id (start + i)) := by
  induction exs generalizing start with
  | nil => simp [extract_fantasy_court_cases_aux]
  | cons ex rest ih =>
    rw [extract_fantasy_court_cases_aux]
    simp only [List.map_cons, List.length_cons, List.range_succ_eq_map,
      List.map_map]
    refine congrArg₂ List.cons (by simp) ?_
    rw [ih (start + 1)]
    apply List.map_congr_left
    intro i _
    simp only [Function.comp]
    congr 1
    omega

/-- C7: Docket-number assignment is deterministic and complete.
The generated docket number equals the string formed by the last two
digits of the publication year, a hyphen, the episode id zero-padded to
4 digits, a hyphen, and the case number; when extraction produces N
cases for one segment, the assigned docket numbers carry sequence
suffixes exactly 1 through N in order; and equal docket numbers force
equal episode ids and equal sequence numbers, so docket numbers are
unique across a corpus whose (episode, sequence) pairs are distinct. -/
theorem C7_docket_number_scheme (y e n : Nat) (episode : PodcastEpisode)
    (segmentId : Nat) (extractions : List CaseExtraction)
    (y₁ e₁ n₁ y₂ e₂ n₂ : Nat) :
    generate_docket_number y e n = docketNumberSpecFormat y e n
    ∧ (extract_fantasy_court_cases episode segmentId extractions).map
        CaseRow.docketNumber =
      (List.range extractions.length).map
        (fun i => generate_docket_number episode.pubYear episode.id (i + 1))
    ∧ (generate_docket_number y₁ e₁ n₁ = generate_docket_number y₂ e₂ n₂ →
        e₁ = e₂ ∧ n₁ = n₂) := by
  refine ⟨?_, ?_, generate_docket_number_inj⟩
  · rw [generate_docket_number, docketNumberSpecFormat, zfill_two_year]
  · rw [extract_fantasy_court_cases, extract_fantasy_court_cases_aux_dockets]
    apply List.map_congr_left
    intro i _
    congr 1
    omega

/-- Witness for C7: episode 197 published in 2025 with two extracted
cases; the injectivity part is applied to the concretely equal docket
numbers of years 2025 and 1925 (same final two digits). -/
theorem C7_docket_number_scheme_witness :
    generate_docket_number 2025 197 1 = docketNumberSpecFormat 2025 197 1
    ∧ (extract_fantasy_court_cases ⟨197, 2025⟩ 3 [⟨"a"⟩, ⟨"b"⟩]).map
        CaseRow.docketNumber =
      (List.range 2).map (fun i => generate_docket_number 2025 197 (i + 1))
    ∧ (197 = 197 ∧ 1 = 1) :=
  ⟨(C7_docket_number_scheme 2025 197 1 ⟨197, 2025⟩ 3 [⟨"a"⟩, ⟨"b"⟩]
      2025 197 1 1925 197 1).1,
   (C7_docket_number_scheme 2025 197 1 ⟨197, 2025⟩ 3 [⟨"a"⟩, ⟨"b"⟩]
      2025 197 1 1925 197 1).2.1,
   (C7_docket_number_scheme 2025 197 1 ⟨197, 2025⟩ 3 [⟨"a"⟩, ⟨"b"⟩]
      2025 197 1 1925 197 1).2.2 (by decide)⟩

theorem generate_docket_number_third (y e n : Nat) :
    (generate_docket_number y e n)[2]? = some '-' := by
  rw [generate_docket_number]
  have hlen : (zfill 2 (decimalDigits (y % 100))).length = 2 := by
    rw [zfill_length]
    have := decimalDigits_length_le_two (show y % 100 < 100 by omega)
    omega
  rw [List.getElem?_append_right (by omega), hlen]
  simp

theorem citationExists_of_mem {db : CitationsDb} {i j : Nat}
    (h : ({ citingCaseId := i, citedCaseId := j } : CaseCitation) ∈ db.citations) :
    citationExists db i j = true := by
  rw [citationExists, List.any_eq_true]
  exact ⟨_, h, by simp⟩

theorem linkCitations_count (citingId : Nat) (db : CitationsDb) (l : List String) :
    (linkCitations citingId db l).2.1 + (linkCitations citingId db l).2.2
      = l.length := by
  induction l generalizing db with
  | nil => simp [linkCitations]
  | cons d rest ih =>
    rw [linkCitations]
    cases hr : resolveDocket db d with
    | none =>
      simp only []
      have := ih db
      simp only [List.length_cons]
      omega
    | some cited =>
      by_cases he : citationExists db citingId cited.id
      · simp only [if_pos he, List.length_cons]
        have := ih db
        omega
      · simp only [if_neg he, List.length_cons]
        have := ih { db with citations := db.citations ++ [⟨citingId, cited.id⟩] }
        omega

theorem linkCitations_cases (citingId : Nat) (db : CitationsDb) (l : List String) :
    (linkCitations citingId db l).1.cases = db.cases := by
  induction l generalizing db with
  | nil => simp [linkCitations]
  | cons d rest ih =>
    rw [linkCitations]
    cases hr : resolveDocket db d with
    | none => exact ih db
    | some cited =>
      by_cases he : citationExists db citingId cited.id
      · simp only [if_pos he]
        exact ih db
      · simp only [if_neg he]
        exact ih { db with citations := db.citations ++ [⟨citingId, cited.id⟩] }

theorem linkCitations_mono (citingId : Nat) (db : CitationsDb) (l : List String)
    {e : CaseCitation} (he : e ∈ db.citations) :
    e ∈ (linkCitations citingId db l).1.citations := by
  induction l generalizing db with
  | nil => simpa [linkCitations] using he
  | cons d rest ih =>
    rw [linkCitations]
    cases hr : resolveDocket db d with
    | none => exact ih db he
    | some cited =>
      by_cases hex : citationExists db citingId cited.id
      · simp only [if_pos hex]
        exact ih db he
      · simp only [if_neg hex]
        exact ih _ (by simp [he])

theorem linkCitations_complete (citingId : Nat) (db : CitationsDb) (l : List String) :
    ∀ d ∈ l, ∀ cc : FCCase, resolveDocket db d = some cc →
      ({ citingCaseId := citingId, citedCaseId := cc.id } : CaseCitation)
        ∈ (linkCitations citingId db l).1.citations := by
  induction l generalizing db with
  | nil => intro d hd; simp at hd
  | cons d₀ rest ih =>
    intro d hd cc hcc
    rw [linkCitations]
    rcases List.mem_cons.mp hd with rfl | hdr
    · rw [hcc]
      by_cases hex : citationExists db citingId cc.id
      · simp only [if_pos hex]
        rw [citationExists, List.any_eq_true] at hex
        obtain ⟨e, hemem, hee⟩ := hex
        simp only [Bool.and_eq_true, beq_iff_eq] at hee
        have heq : e = { citingCaseId := citingId, citedCaseId := cc.id } := by
          cases e; simp_all
        exact linkCitations_mono citingId db rest (heq ▸ hemem)
      · simp only [if_neg hex]
        exact linkCitations_mono citingId _ rest (by simp)
    · cases hr : resolveDocket db d₀ with
      | none => exact ih db d hdr cc hcc
      | some cited =>
        by_cases hex : citationExists db citingId cited.id
        · simp only [if_pos hex]
          exact ih db d hdr cc hcc
        · simp only [if_neg hex]
          exact ih _ d hdr cc hcc

theorem linkCitations_stable (citingId : Nat) (db : CitationsDb) (l : List String)
    (h : ∀ d ∈ l, ∀ cc : FCCase, resolveDocket db d = some cc →
      ({ citingCaseId := citingId, citedCaseId := cc.id } : CaseCitation)
        ∈ db.citations) :
    linkCitations citingId db l = (db, 0, l.length) := by
  induction l with
  | nil => simp [linkCitations]
  | cons d rest ih =>
    rw [linkCitations]
    cases hr : resolveDocket db d with
    | none =>
      rw [ih (fun d hd => h d (List.mem_cons_of_mem _ hd))]
      simp
    | some cited =>
      have hex : citationExists db citingId cited.id = true :=
        citationExists_of_mem (h d (List.mem_cons_self d rest) cited hr)
      simp only [if_pos hex]
      rw [ih (fun d hd => h d (List.mem_cons_of_mem _ hd))]
      simp

theorem citationsMain_cases (db : CitationsDb) (ops : List Opinion) :
    (citationsMain db ops).1.cases = db.cases := by
  induction ops generalizing db with
  | nil => simp [citationsMain]
  | cons op rest ih =>
    rw [citationsMain]
    simp only []
    rw [ih]
    exact linkCitations_cases op.caseId db (extract_citations op.opinionBody)

theorem citationsMain_mono (db : CitationsDb) (ops : List Opinion)
    {e : CaseCitation} (he : e ∈ db.citations) :
    e ∈ (citationsMain db ops).1.citations := by
  induction ops generalizing db with
  | nil => simpa [citationsMain] using he
  | cons op rest ih =>
    rw [citationsMain]
    exact ih _ (linkCitations_mono op.caseId db (extract_citations op.opinionBody) he)

theorem resolveDocket_eq_of_cases {db₁ db₂ : CitationsDb}
    (h : db₁.cases = db₂.cases) (d : String) :
    resolveDocket db₁ d = resolveDocket db₂ d := by
  rw [resolveDocket, resolveDocket, h]

theorem citationsMain_complete (db : CitationsDb) (ops : List Opinion) :
    ∀ op ∈ ops, ∀ d ∈ extract_citations op.opinionBody, ∀ cc : FCCase,
      resolveDocket (citationsMain db ops).1 d = some cc →
      ({ citingCaseId := op.caseId, citedCaseId := cc.id } : CaseCitation)
        ∈ (citationsMain db ops).1.citations := by
  induction ops generalizing db with
  | nil => intro op hop; simp at hop
  | cons op₀ rest ih =>
    intro op hop d hd cc hcc
    have hcasesAll : (citationsMain db (op₀ :: rest)).1.cases = db.cases :=
      citationsMain_cases db (op₀ :: rest)
    rcases List.mem_cons.mp hop with rfl | hopr
    · rw [resolveDocket_eq_of_cases hcasesAll d] at hcc
      rw [citationsMain]
      simp only []
      apply citationsMain_mono
      exact linkCitations_complete op.caseId db
        (extract_citations op.opinionBody) d hd cc hcc
    · rw [citationsMain] at hcc ⊢
      simp only [] at hcc ⊢
      exact ih _ op hopr d hd cc hcc

theorem citationsMain_stable (db : CitationsDb) (ops : List Opinion)
    (h : ∀ op ∈ ops, ∀ d ∈ extract_citations op.opinionBody, ∀ cc : FCCase,
      resolveDocket db d = some cc →
      ({ citingCaseId := op.caseId, citedCaseId := cc.id } : CaseCitation)
        ∈ db.citations) :
    (citationsMain db ops).1 = db ∧ (citationsMain db ops).2.1 = 0 := by
  induction ops with
  | nil => simp [citationsMain]
  | cons op rest ih =>
    rw [citationsMain]
    have hstep : process_opinion_citations db op
        = (db, 0, (extract_citations op.opinionBody).length) :=
      linkCitations_stable op.caseId db (extract_citations op.opinionBody)
        (h op (List.mem_cons_self op rest))
    rw [hstep]
    have := ih (fun op hop => h op (List.mem_cons_of_mem _ hop))
    simp only []
    rw [this.1]
    simp [this.1, this.2]

/-- C3: Citation linking is idempotent and accounts for every extracted
reference.  process_opinion_citations returns created and skipped
counters summing to the number of distinct extracted docket numbers;
when every extracted identifier resolves to no existing case the run
only warns and skips (zero created, session unchanged, all identifiers
skipped); and a second run of the citation builder over unchanged
opinion text creates zero new edges and leaves the session unchanged. -/
theorem C3_citation_linking_idempotent (db : CitationsDb) (op : Opinion)
    (ops : List Opinion) :
    ((process_opinion_citations db op).2.1 + (process_opinion_citations db op).2.2
        = (extract_citations op.opinionBody).length)
    ∧ ((∀ d ∈ extract_citations op.opinionBody, resolveDocket db d = none) →
        process_opinion_citations db op
          = (db, 0, (extract_citations op.opinionBody).length))
    ∧ (citationsMain (citationsMain db ops).1 ops).2.1 = 0
    ∧ (citationsMain (citationsMain db ops).1 ops).1 = (citationsMain db ops).1 := by
  refine ⟨linkCitations_count _ _ _, ?_, ?_, ?_⟩
  · intro h
    apply linkCitations_stable
    intro d hd cc hcc
    rw [h d hd] at hcc
    exact absurd hcc (by simp)
  · exact (citationsMain_stable _ ops (citationsMain_complete db ops)).2
  · exact (citationsMain_stable _ ops (citationsMain_complete db ops)).1

/-- Witness for C3: one opinion citing the unresolvable identifier of
invalidCitationDoc, against a session holding one case and no edges. -/
theorem C3_citation_linking_idempotent_witness :
    ((process_opinion_citations ⟨[⟨1, "25-0001-1"⟩], []⟩
          ⟨7, 2, invalidCitationDoc⟩).2.1
        + (process_opinion_citations ⟨[⟨1, "25-0001-1"⟩], []⟩
          ⟨7, 2, invalidCitationDoc⟩).2.2
      = (extract_citations invalidCitationDoc).length)
    ∧ (process_opinion_citations ⟨[⟨1, "25-0001-1"⟩], []⟩ ⟨7, 2, invalidCitationDoc⟩
        = (⟨[⟨1, "25-0001-1"⟩], []⟩, 0, (extract_citations invalidCitationDoc).length))
    ∧ (citationsMain
        (citationsMain ⟨[⟨1, "25-0001-1"⟩], []⟩ [⟨7, 2, invalidCitationDoc⟩]).1
        [⟨7, 2, invalidCitationDoc⟩]).2.1 = 0
    ∧ (citationsMain
        (citationsMain ⟨[⟨1, "25-0001-1"⟩], []⟩ [⟨7, 2, invalidCitationDoc⟩]).1
        [⟨7, 2, invalidCitationDoc⟩]).1
      = (citationsMain ⟨[⟨1, "25-0001-1"⟩], []⟩ [⟨7, 2, invalidCitationDoc⟩]).1 :=
  ⟨(C3_citation_linking_idempotent ⟨[⟨1, "25-0001-1"⟩], []⟩
      ⟨7, 2, invalidCitationDoc⟩ [⟨7, 2, invalidCitationDoc⟩]).1,
   (C3_citation_linking_idempotent ⟨[⟨1, "25-0001-1"⟩], []⟩
      ⟨7, 2, invalidCitationDoc⟩ [⟨7, 2, invalidCitationDoc⟩]).2.1 (by decide),
   (C3_citation_linking_idempotent ⟨[⟨1, "25-0001-1"⟩], []⟩
      ⟨7, 2, invalidCitationDoc⟩ [⟨7, 2, invalidCitationDoc⟩]).2.2.1,
   (C3_citation_linking_idempotent ⟨[⟨1, "25-0001-1"⟩], []⟩
      ⟨7, 2, invalidCitationDoc⟩ [⟨7, 2, invalidCitationDoc⟩]).2.2.2⟩

/-- C8 (amended): extract_citations is a pure function of the parsed
tree returning the deduplicated collection of the data-cite-docket span
attribute values found by structural parsing: the result is
duplicate-free, its members are exactly the collected attribute values,
and it is invariant as a set under any reordering of the citations in
the text.  Contrary to the claim as stated, no docket-format validation
occurs before resolution; see the counterexample theorem. -/
theorem C8_extract_citations_dedup (doc doc₁ doc₂ : Html) :
    (extract_citations doc).Nodup
    ∧ (∀ d, d ∈ extract_citations doc ↔ d ∈ citeDockets doc)
    ∧ ((citeDockets doc₁).Perm (citeDockets doc₂) →
        (extract_citations doc₁).Perm (extract_citations doc₂)) :=
  ⟨List.nodup_dedup _, fun _ => List.mem_dedup, fun h => h.dedup⟩

/-- Witness for C8: two documents carrying the same two citation spans
in opposite orders. -/
theorem C8_extract_citations_dedup_witness :
    (extract_citations (Html.element "p" []
        (.cons (Html.element "span" [("data-cite-docket", "25-0001-1")] .nil)
        (.cons (Html.element "span" [("data-cite-docket", "25-0002-1")] .nil)
          .nil)))).Nodup
    ∧ (∀ d, d ∈ extract_citations (Html.element "p" []
        (.cons (Html.element "span" [("data-cite-docket", "25-0001-1")] .nil)
        (.cons (Html.element "span" [("data-cite-docket", "25-0002-1")] .nil)
          .nil)))
        ↔ d ∈ citeDockets (Html.element "p" []
        (.cons (Html.element "span" [("data-cite-docket", "25-0001-1")] .nil)
        (.cons (Html.element "span" [("data-cite-docket", "25-0002-1")] .nil)
          .nil))))
    ∧ (extract_citations (Html.element "p" []
        (.cons (Html.element "span" [("data-cite-docket", "25-0001-1")] .nil)
        (.cons (Html.element "span" [("data-cite-docket", "25-0002-1")] .nil)
          .nil)))).Perm
      (extract_citations (Html.element "p" []
        (.cons (Html.element "span" [("data-cite-docket", "25-0002-1")] .nil)
        (.cons (Html.element "span" [("data-cite-docket", "25-0001-1")] .nil)
          .nil)))) :=
  ⟨(C8_extract_citations_dedup (Html.element "p" []
        (.cons (Html.element "span" [("data-cite-docket", "25-0001-1")] .nil)
        (.cons (Html.element "span" [("data-cite-docket", "25-0002-1")] .nil)
          .nil)))
      (Html.element "p" []
        (.cons (Html.element "span" [("data-cite-docket", "25-0001-1")] .nil)
        (.cons (Html.element "span" [("data-cite-docket", "25-0002-1")] .nil)
          .nil)))
      (Html.element "p" []
        (.cons (Html.element "span" [("data-cite-docket", "25-0002-1")] .nil)
        (.cons (Html.element "span" [("data-cite-docket", "25-0001-1")] .nil)
          .nil)))).1,
   (C8_extract_citations_dedup (Html.element "p" []
        (.cons (Html.element "span" [("data-cite-docket", "25-0001-1")] .nil)
        (.cons (Html.element "span" [("data-cite-docket", "25-0002-1")] .nil)
          .nil)))
      (Html.element "p" []
        (.cons (Html.element "span" [("data-cite-docket", "25-0001-1")] .nil)
        (.cons (Html.element "span" [("data-cite-docket", "25-0002-1")] .nil)
          .nil)))
      (Html.element "p" []
        (.cons (Html.element "span" [("data-cite-docket", "25-0002-1")] .nil)
        (.cons (Html.element "span" [("data-cite-docket", "25-0001-1")] .nil)
          .nil)))).2.1,
   (C8_extract_citations_dedup (Html.element "p" []
        (.cons (Html.element "span" [("data-cite-docket", "25-0001-1")] .nil)
        (.cons (Html.element "span" [("data-cite-docket", "25-0002-1")] .nil)
          .nil)))
      (Html.element "p" []
        (.cons (Html.element "span" [("data-cite-docket", "25-0001-1")] .nil)
        (.cons (Html.element "span" [("data-cite-docket", "25-0002-1")] .nil)
          .nil)))
      (Html.element "p" []
        (.cons (Html.element "span" [("data-cite-docket", "25-0002-1")] .nil)
        (.cons (Html.element "span" [("data-cite-docket", "25-0001-1")] .nil)
          .nil)))).2.2 (by decide)⟩

/-- C8 counterexample: extract_citations returns the identifier
"not-a-docket" from invalidCitationDoc even though the docket scheme
cannot produce it, so no format validation happens before resolution is
attempted. -/
theorem C8_no_format_validation :
    ¬ ∀ d ∈ extract_citations invalidCitationDoc, isValidDocketFormat d := by
  intro h
  obtain ⟨y, e, n, heq⟩ := h "not-a-docket" (by decide)
  have h3 := generate_docket_number_third y e n
  rw [← heq] at h3
  have ht : ("not-a-docket".data)[2]? = some 't' := by decide
  rw [ht] at h3
  exact absurd h3 (by decide)

theorem filter_isEmpty_of_any_false {α : Type} {l : List α} {p : α → Bool}
    (h : l.any p = false) : (l.filter p).isEmpty = true := by
  rw [List.isEmpty_iff, List.filter_eq_nil_iff]
  intro a ha
  simp [List.any_eq_false.mp h a ha]

theorem filter_isEmpty_of_any_true {α : Type} {l : List α} {p : α → Bool}
    (h : l.any p = true) : (l.filter p).isEmpty = false := by
  rw [List.isEmpty_eq_false_iff_exists_mem]
  obtain ⟨a, ha, hp⟩ := List.any_eq_true.mp h
  exact ⟨a, List.mem_filter.mpr ⟨ha, hp⟩⟩

theorem processToolCalls_submitted (turn : List ContentBlock) :
    (processToolCalls (turn.filter hasToolUse)).2 = turnSubmits turn := by
  induction turn with
  | nil => rfl
  | cons b rest ih =>
    cases b with
    | thinking =>
      simp only [List.filter_cons, turnSubmits, List.any_cons] at ih ⊢
      simpa [hasToolUse] using ih
    | text s =>
      simp only [List.filter_cons, turnSubmits, List.any_cons] at ih ⊢
      simpa [hasToolUse] using ih
    | toolUse n =>
      simp only [List.filter_cons, turnSubmits, List.any_cons] at ih ⊢
      by_cases hn : n = "submit_opinion"
      · subst hn
        simp [hasToolUse, processToolCalls]
      · by_cases hk : n = "list_past_opinions" ∨ n = "read_past_opinion"
        · simp only [hasToolUse, if_pos rfl, processToolCalls, if_neg hn, if_pos hk]
          rw [ih]
          simp [hn]
        · simp only [hasToolUse, if_pos rfl, processToolCalls, if_neg hn, if_neg hk]
          rw [ih]
          simp [hn]

theorem run_aux_iterations_le (turns : Nat → List ContentBlock)
    (fuel iteration : Nat) (ms : List Message) :
    (run_opinion_drafting_agent_aux turns fuel iteration ms).1.iterationsRun
      ≤ iteration + fuel := by
  induction fuel generalizing iteration ms with
  | zero => simp [run_opinion_drafting_agent_aux]
  | succ fuel ih =>
    rw [run_opinion_drafting_agent_aux]
    by_cases h1 : ((turns iteration).filter hasToolUse).isEmpty
    · by_cases h2 : ((turns iteration).filter isTextBlock).isEmpty
      · simp only [if_pos h1, if_pos h2]
        omega
      · simp only [if_pos h1, if_neg h2]
        omega
    · by_cases h3 : (processToolCalls ((turns iteration).filter hasToolUse)).2
      · simp only [if_neg h1, if_pos h3]
        omega
      · simp only [if_neg h1, if_neg h3]
        have := ih (iteration + 1)
          (if (processToolCalls ((turns iteration).filter hasToolUse)).1.isEmpty then
            (ms ++ [assistantMessage (turns iteration)]) ++ [⟨"user", []⟩]
          else
            remove_cache_controls (ms ++ [assistantMessage (turns iteration)])
              ++ [⟨"user", markLastCached
                    (processToolCalls ((turns iteration).filter hasToolUse)).1⟩])
        omega

theorem run_aux_protocol (turns : Nat → List ContentBlock) :
    ∀ i fuel iteration ms, i < fuel →
      (∀ j, j < i → ContinuesAt turns (iteration + j)) →
      turnHasToolUse (turns (iteration + i)) = false →
      (run_opinion_drafting_agent_aux turns fuel iteration ms).1 =
        ⟨if ((turns (iteration + i)).filter isTextBlock).isEmpty
          then .protocolErrorNoContent else .protocolErrorText,
         iteration + i + 1⟩ := by
  intro i
  induction i with
  | zero =>
    intro fuel iteration ms hfuel hcont herr
    match fuel, hfuel with
    | fuel + 1, _ =>
      rw [run_opinion_drafting_agent_aux]
      simp only [Nat.add_zero] at herr ⊢
      have hempty : ((turns iteration).filter hasToolUse).isEmpty = true :=
        filter_isEmpty_of_any_false herr
      by_cases h2 : ((turns iteration).filter isTextBlock).isEmpty
      · simp [hempty, h2]
      · simp [hempty, h2]
  | succ i ih =>
    intro fuel iteration ms hfuel hcont herr
    match fuel, hfuel with
    | fuel + 1, hfuel =>
      rw [run_opinion_drafting_agent_aux]
      have hcont0 := hcont 0 (Nat.succ_pos i)
      rw [Nat.add_zero] at hcont0
      have hne : ((turns iteration).filter hasToolUse).isEmpty = false :=
        filter_isEmpty_of_any_true hcont0.1
      have hsub : (processToolCalls ((turns iteration).filter hasToolUse)).2 = false := by
        rw [processToolCalls_submitted]
        exact hcont0.2
      simp only [hne, Bool.false_eq_true, if_false, hsub]
      have := ih fuel (iteration + 1)
        (if (processToolCalls ((turns iteration).filter hasToolUse)).1.isEmpty then
          (ms ++ [assistantMessage (turns iteration)]) ++ [⟨"user", []⟩]
        else
          remove_cache_controls (ms ++ [assistantMessage (turns iteration)])
            ++ [⟨"user", markLastCached
                  (processToolCalls ((turns iteration).filter hasToolUse)).1⟩])
        (by omega)
        (fun j hj => by
          have := hcont (j + 1) (by omega)
          rwa [show iteration + (j + 1) = iteration + 1 + j by omega] at this)
        (by rwa [show iteration + 1 + i = iteration + (i + 1) by omega])
      rw [this]
      have harith : iteration + 1 + i = iteration + (i + 1) := by omega
      rw [harith]
  
theorem run_aux_max (turns : Nat → List ContentBlock) :
    ∀ fuel iteration ms, (∀ j, j < fuel → ContinuesAt turns (iteration + j)) →
      (run_opinion_drafting_agent_aux turns fuel iteration ms).1 =
        ⟨.maxIterationsError, iteration + fuel⟩ := by
  intro fuel
  induction fuel with
  | zero => intro iteration ms _; simp [run_opinion_drafting_agent_aux]
  | succ fuel ih =>
    intro iteration ms hcont
    rw [run_opinion_drafting_agent_aux]
    have hcont0 := hcont 0 (Nat.succ_pos fuel)
    rw [Nat.add_zero] at hcont0
    have hne : ((turns iteration).filter hasToolUse).isEmpty = false :=
      filter_isEmpty_of_any_true hcont0.1
    have hsub : (processToolCalls ((turns iteration).filter hasToolUse)).2 = false := by
      rw [processToolCalls_submitted]
      exact hcont0.2
    simp only [hne, Bool.false_eq_true, if_false, hsub]
    have := ih (iteration + 1)
      (if (processToolCalls ((turns iteration).filter hasToolUse)).1.isEmpty then
        (ms ++ [assistantMessage (turns iteration)]) ++ [⟨"user", []⟩]
      else
        remove_cache_controls (ms ++ [assistantMessage (turns iteration)])
          ++ [⟨"user", markLastCached
                (processToolCalls ((turns iteration).filter hasToolUse)).1⟩])
      (fun j hj => by
        have := hcont (j + 1) (by omega)
        rwa [show iteration + (j + 1) = iteration + 1 + j by omega] at this)
    rw [this]
    have harith : iteration + 1 + fuel = iteration + (fuel + 1) := by omega
    rw [harith]

/-- C4: The agent tool loop always terminates.  For every provider
behaviour the loop returns after at most 20 iterations; a model turn
containing no tool call - reached after turns that each contain a
non-terminal tool call - raises a protocol error on that same iteration;
and a provider whose every turn contains a tool call but never the
terminal submit_opinion causes the max-iterations error after exactly 20
iterations. -/
theorem C4_agent_loop_termination (turns : Nat → List ContentBlock) (i : Nat) :
    (run_opinion_drafting_agent turns).1.iterationsRun ≤ 20
    ∧ (i < 20 → (∀ j, j < i → ContinuesAt turns j) →
        turnHasToolUse (turns i) = false →
        (run_opinion_drafting_agent turns).1 =
          ⟨if ((turns i).filter isTextBlock).isEmpty
            then .protocolErrorNoContent else .protocolErrorText, i + 1⟩)
    ∧ ((∀ j, j < 20 → ContinuesAt turns j) →
        (run_opinion_drafting_agent turns).1 = ⟨.maxIterationsError, 20⟩) := by
  refine ⟨?_, ?_, ?_⟩
  · simpa using run_aux_iterations_le turns 20 0 initialMessages
  · intro hi hcont herr
    have := run_aux_protocol turns i 20 0 initialMessages hi
      (fun j hj => by simpa using hcont j hj) (by simpa using herr)
    simpa using this
  · intro hcont
    have := run_aux_max turns 20 0 initialMessages
      (fun j hj => by simpa using hcont j hj)
    simpa using this

/-- Witness for C4: a stub provider that always answers with a bare text
block is stopped by a protocol error on its first iteration, and a stub
provider that always calls list_past_opinions and never submits is
stopped by the max-iterations error after exactly 20 iterations. -/
theorem C4_agent_loop_termination_witness :
    (run_opinion_drafting_agent (fun _ => [ContentBlock.text "w"])).1 =
      ⟨if (([ContentBlock.text "w"] : List ContentBlock).filter isTextBlock).isEmpty
        then .protocolErrorNoContent else .protocolErrorText, 0 + 1⟩
    ∧ (run_opinion_drafting_agent
        (fun _ => [ContentBlock.toolUse "list_past_opinions"])).1 =
      ⟨.maxIterationsError, 20⟩ :=
  ⟨(C4_agent_loop_termination (fun _ => [ContentBlock.text "w"]) 0).2.1
      (by norm_num) (fun j hj => absurd hj (by omega)) (by decide),
   (C4_agent_loop_termination
      (fun _ => [ContentBlock.toolUse "list_past_opinions"]) 0).2.2
      (fun j _ =>
        ⟨(by decide :
            turnHasToolUse [ContentBlock.toolUse "list_past_opinions"] = true),
         (by decide :
            turnSubmits [ContentBlock.toolUse "list_past_opinions"] = false)⟩)⟩

theorem cachedBlockCount_cons (m : Message) (ms : List Message) :
    cachedBlockCount (m :: ms) =
      (m.blocks.filter (fun b => b.cached)).length + cachedBlockCount ms := by
  simp [cachedBlockCount]

theorem cachedBlockCount_append (ms₁ ms₂ : List Message) :
    cachedBlockCount (ms₁ ++ ms₂) = cachedBlockCount ms₁ + cachedBlockCount ms₂ := by
  simp [cachedBlockCount]

theorem remove_cache_controls_dict_uncached (ms : List Message) :
    ∀ m ∈ remove_cache_controls ms, ∀ b ∈ m.blocks,
      b.isDict = true → b.cached = false := by
  intro m hm b hb hdict
  rw [remove_cache_controls, List.mem_map] at hm
  obtain ⟨m₀, _, rfl⟩ := hm
  simp only [List.mem_map] at hb
  obtain ⟨b₀, _, rfl⟩ := hb
  by_cases hd : b₀.isDict
  · simp [hd]
  · simp only [if_neg hd] at hdict ⊢
    exact absurd hdict hd

theorem remove_cache_controls_count (ms : List Message)
    (h : ∀ m ∈ ms, ∀ b ∈ m.blocks, b.cached = true → b.isDict = true) :
    cachedBlockCount (remove_cache_controls ms) = 0 := by
  induction ms with
  | nil => rfl
  | cons m rest ih =>
    have hmap : remove_cache_controls (m :: rest) =
        ({ m with blocks :=
            (m.blocks.map
              (fun b => if b.isDict then { b with cached := false } else b)) }
          : Message) :: remove_cache_controls rest := by
      simp [remove_cache_controls]
    rw [hmap, cachedBlockCount_cons,
      ih (fun m' hm' => h m' (List.mem_cons_of_mem _ hm'))]
    have hfil : ((m.blocks.map
        (fun b => if b.isDict then { b with cached := false } else b)).filter
          (fun b => b.cached)) = [] := by
      rw [List.filter_eq_nil_iff]
      intro b hb
      rw [List.mem_map] at hb
      obtain ⟨b₀, hb₀, rfl⟩ := hb
      by_cases hd : b₀.isDict
      · simp [hd]
      · simp only [if_neg hd]
        intro hc
        exact hd (h m (List.mem_cons_self m rest) b₀ hb₀ (by simpa using hc))
    simp [hfil]

theorem processToolCalls_blocks (l : List ContentBlock) :
    ∀ b ∈ (processToolCalls l).1, b = (⟨true, false⟩ : MsgBlock) := by
  induction l with
  | nil => intro b hb; simp [processToolCalls] at hb
  | cons x rest ih =>
    intro b hb
    cases x with
    | thinking => exact ih b (by simpa [processToolCalls] using hb)
    | text s => exact ih b (by simpa [processToolCalls] using hb)
    | toolUse n =>
      by_cases hn : n = "submit_opinion"
      · rw [processToolCalls, if_pos hn] at hb
        simp at hb
      · by_cases hk : n = "list_past_opinions" ∨ n = "read_past_opinion"
        · rw [processToolCalls, if_neg hn, if_pos hk] at hb
          rcases List.mem_cons.mp hb with rfl | hb'
          · rfl
          · exact ih b hb'
        · rw [processToolCalls, if_neg hn, if_neg hk] at hb
          exact ih b hb

theorem markLastCached_isDict (l : List MsgBlock)
    (h : ∀ b ∈ l, b.isDict = true) :
    ∀ b ∈ markLastCached l, b.isDict = true := by
  induction l with
  | nil => intro b hb; simp [markLastCached] at hb
  | cons x rest ih =>
    intro b hb
    cases rest with
    | nil =>
      rw [markLastCached] at hb
      rcases List.mem_singleton.mp hb with rfl
      simpa using h x (by simp)
    | cons y rest' =>
      have heq : markLastCached (x :: y :: rest') = x :: markLastCached (y :: rest') :=
        rfl
      rw [heq] at hb
      rcases List.mem_cons.mp hb with rfl | hb'
      · exact h b (by simp)
      · exact ih (fun b hb => h b (List.mem_cons_of_mem _ hb)) b hb'

theorem markLastCached_count (l : List MsgBlock)
    (h : ∀ b ∈ l, b.cached = false) :
    ((markLastCached l).filter (fun b => b.cached)).length ≤ 1 := by
  induction l with
  | nil => simp [markLastCached]
  | cons x rest ih =>
    cases rest with
    | nil => simp [markLastCached]
    | cons y rest' =>
      have heq : markLastCached (x :: y :: rest') = x :: markLastCached (y :: rest') :=
        rfl
      rw [heq]
      have hx : x.cached = false := h x (by simp)
      rw [List.filter_cons, hx]
      simpa using ih (fun b hb => h b (List.mem_cons_of_mem _ hb))

theorem cachedBlockCount_eq_zero {ms : List Message} (h : cachedBlockCount ms = 0) :
    ∀ m ∈ ms, ∀ b ∈ m.blocks, b.cached = false := by
  intro m hm b hb
  by_contra hc
  simp only [Bool.not_eq_false] at hc
  have hz : ((m.blocks.filter (fun b => b.cached)).length : Nat) = 0 := by
    rw [cachedBlockCount] at h
    have := List.sum_eq_zero_iff.mp h _ (List.mem_map_of_mem _ hm)
    simpa using this
  rw [List.length_eq_zero, List.filter_eq_nil_iff] at hz
  exact hz b hb (by simp [hc])

theorem run_aux_histories (turns : Nat → List ContentBlock) :
    ∀ fuel iteration ms,
      cachedBlockCount ms ≤ 1 →
      (∀ m ∈ ms, ∀ b ∈ m.blocks, b.cached = true → b.isDict = true) →
      ∀ h ∈ (run_opinion_drafting_agent_aux turns fuel iteration ms).2,
        cachedBlockCount h ≤ 1 := by
  intro fuel
  induction fuel with
  | zero =>
    intro iteration ms _ _ h hh
    simp [run_opinion_drafting_agent_aux] at hh
  | succ fuel ih =>
    intro iteration ms hcount hdict h hh
    rw [run_opinion_drafting_agent_aux] at hh
    by_cases h1 : ((turns iteration).filter hasToolUse).isEmpty
    · by_cases h2 : ((turns iteration).filter isTextBlock).isEmpty
      · simp only [h1, if_true, h2] at hh
        simp at hh
        exact hh ▸ hcount
      · simp only [h1, if_true, h2] at hh
        simp at hh
        exact hh ▸ hcount
    · by_cases h3 : (processToolCalls ((turns iteration).filter hasToolUse)).2
      · simp only [h1, Bool.false_eq_true, if_false, h3, if_true] at hh
        simp at hh
        exact hh ▸ hcount
      · simp only [h1, Bool.false_eq_true, if_false, h3] at hh
        simp only [List.mem_cons] at hh
        rcases hh with rfl | hh'
        · exact hcount
        · set pr := processToolCalls ((turns iteration).filter hasToolUse) with hpr
          have hasst : ∀ b ∈ (assistantMessage (turns iteration)).blocks,
              b.cached = false := by
            intro b hb
            rw [assistantMessage] at hb
            simp only [List.mem_map] at hb
            obtain ⟨_, _, rfl⟩ := hb
            rfl
          have hdict₁ : ∀ m ∈ ms ++ [assistantMessage (turns iteration)],
              ∀ b ∈ m.blocks, b.cached = true → b.isDict = true := by
            intro m hm b hb hc
            rcases List.mem_append.mp hm with hm' | hm'
            · exact hdict m hm' b hb hc
            · rcases List.mem_singleton.mp hm'
              rw [hasst b hb] at hc
              exact absurd hc (by simp)
          by_cases h4 : pr.1.isEmpty
          · rw [if_pos h4] at hh'
            have hcountA : cachedBlockCount
                ((ms ++ [assistantMessage (turns iteration)]) ++ [⟨"user", []⟩]) ≤ 1 := by
              rw [cachedBlockCount_append, cachedBlockCount_append]
              have ha : cachedBlockCount [assistantMessage (turns iteration)] = 0 := by
                have hfil : ((assistantMessage (turns iteration)).blocks.filter
                    (fun b => b.cached)) = [] := by
                  rw [List.filter_eq_nil_iff]
                  intro b hb
                  simp [hasst b hb]
                simp [cachedBlockCount, hfil]
              have hu : cachedBlockCount [(⟨"user", []⟩ : Message)] = 0 := by
                simp [cachedBlockCount]
              omega
            have hdictA : ∀ m ∈ (ms ++ [assistantMessage (turns iteration)])
                ++ [(⟨"user", []⟩ : Message)],
                ∀ b ∈ m.blocks, b.cached = true → b.isDict = true := by
              intro m hm b hb hc
              rcases List.mem_append.mp hm with hm' | hm'
              · exact hdict₁ m hm' b hb hc
              · rcases List.mem_singleton.mp hm'
                simp at hb
            exact ih (iteration + 1) _ hcountA hdictA h hh'
          · rw [if_neg h4] at hh'
            have hzero : cachedBlockCount
                (remove_cache_controls (ms ++ [assistantMessage (turns iteration)]))
                = 0 := remove_cache_controls_count _ hdict₁
            have hcountA : cachedBlockCount
                (remove_cache_controls (ms ++ [assistantMessage (turns iteration)])
                  ++ [⟨"user", markLastCached pr.1⟩]) ≤ 1 := by
              rw [cachedBlockCount_append, hzero]
              have hm1 : cachedBlockCount [(⟨"user", markLastCached pr.1⟩ : Message)]
                  = ((markLastCached pr.1).filter (fun b => b.cached)).length := by
                simp [cachedBlockCount]
              rw [hm1]
              have := markLastCached_count pr.1
                (fun b hb => by rw [processToolCalls_blocks _ b hb])
              omega
            have hdictA : ∀ m ∈ remove_cache_controls
                (ms ++ [assistantMessage (turns iteration)])
                ++ [(⟨"user", markLastCached pr.1⟩ : Message)],
                ∀ b ∈ m.blocks, b.cached = true → b.isDict = true := by
              intro m hm b hb hc
              rcases List.mem_append.mp hm with hm' | hm'
              · have := cachedBlockCount_eq_zero hzero m hm' b hb
                rw [this] at hc
                exact absurd hc (by simp)
              · rcases List.mem_singleton.mp hm'
                exact markLastCached_isDict pr.1
                  (fun b hb => by rw [processToolCalls_blocks _ b hb]) b hb
            exact ih (iteration + 1) _ hcountA hdictA h hh'

/-- C9: Cache-marker hygiene of the agent loop.  remove_cache_controls
leaves every dict content block of the history unmarked, so at the point
where the loop attaches a fresh marker to the latest tool-result block
all previously present markers are gone; consequently every message
history passed to a provider call carries at most one cache_control
marker among its turns. -/
theorem C9_cache_marker_hygiene (turns : Nat → List ContentBlock)
    (ms : List Message) :
    (∀ m ∈ remove_cache_controls ms, ∀ b ∈ m.blocks,
        b.isDict = true → b.cached = false)
    ∧ ∀ h ∈ (run_opinion_drafting_agent turns).2, cachedBlockCount h ≤ 1 := by
  refine ⟨remove_cache_controls_dict_uncached ms, ?_⟩
  exact run_aux_histories turns 20 0 initialMessages (by decide)
    (by
      intro m hm b hb hc
      rcases List.mem_singleton.mp hm
      rcases List.mem_singleton.mp hb
      rfl)

/-- Witness for C9: the initial history of a provider that submits on
its first turn, and the marker removal applied to that history. -/
theorem C9_cache_marker_hygiene_witness :
    ((⟨true, false⟩ : MsgBlock).cached = false)
    ∧ cachedBlockCount initialMessages ≤ 1 :=
  ⟨(C9_cache_marker_hygiene (fun _ => [ContentBlock.toolUse "submit_opinion"])
      initialMessages).1 ⟨"user", [⟨true, false⟩]⟩ (by decide)
      ⟨true, false⟩ (by decide) (by decide),
   (C9_cache_marker_hygiene (fun _ => [ContentBlock.toolUse "submit_opinion"])
      initialMessages).2 initialMessages (by decide)⟩

theorem committedRows_append (succeeds : CaseUnit → Bool) (l₁ l₂ : List CaseUnit) :
    committedRows succeeds (l₁ ++ l₂)
      = committedRows succeeds l₁ ++ committedRows succeeds l₂ := by
  simp [committedRows]

theorem foldl_processOneBatch (succeeds : CaseUnit → Bool) :
    ∀ (bss : List (List CaseUnit)) (st : BatchState),
      bss.foldl (processOneBatch succeeds) st =
        { db := st.db ++ committedRows succeeds bss.flatten,
          observations := st.observations ++ batchObservations succeeds st.db bss,
          created := st.created + (committedRows succeeds bss.flatten).length,
          failed := st.failed
            + (bss.flatten.filter (fun c => !(succeeds c))).length } := by
  intro bss
  induction bss with
  | nil =>
    intro st
    simp [batchObservations, committedRows]
  | cons batch rest ih =>
    intro st
    rw [List.foldl_cons, ih]
    simp only [processOneBatch, batchObservations, List.flatten_cons,
      committedRows_append, List.filter_append, List.length_append,
      List.append_assoc, BatchState.mk.injEq]
    refine ⟨trivial, trivial, by omega, by omega⟩

theorem chunkList_flatten_bounded {α : Type} (size : Nat) :
    ∀ (n : Nat) (l : List α), l.length ≤ n → (chunkList size l).flatten = l := by
  intro n
  induction n with
  | zero =>
    intro l hl
    have : l = [] := List.eq_nil_of_length_eq_zero (by omega)
    subst this
    simp [chunkList]
  | succ n ih =>
    intro l hl
    cases l with
    | nil => simp [chunkList]
    | cons x rest =>
      rw [chunkList]
      rw [List.flatten_cons]
      have hdrop : (rest.drop (size - 1)).length ≤ n := by
        simp only [List.length_drop]
        simp only [List.length_cons] at hl
        omega
      rw [ih _ hdrop]
      simp [List.take_append_drop]

theorem chunkList_flatten {α : Type} (size : Nat) (l : List α) :
    (chunkList size l).flatten = l :=
  chunkList_flatten_bounded size l.length l le_rfl

theorem batchObservations_mem (succeeds : CaseUnit → Bool) :
    ∀ (bss : List (List CaseUnit)) (db : List OpinionRow) (b : Nat)
      (hb : b < bss.length) (c : CaseUnit), c ∈ bss.get ⟨b, hb⟩ →
      (c.id, db ++ committedRows succeeds ((bss.take b).flatten))
        ∈ batchObservations succeeds db bss := by
  intro bss
  induction bss with
  | nil => intro db b hb; simp at hb
  | cons batch rest ih =>
    intro db b hb c hc
    cases b with
    | zero =>
      rw [batchObservations]
      apply List.mem_append_left
      have h0 : committedRows succeeds (((batch :: rest).take 0).flatten) = [] := rfl
      rw [h0, List.append_nil]
      exact List.mem_map_of_mem _ hc
    | succ b =>
      rw [batchObservations]
      apply List.mem_append_right
      have hb' : b < rest.length := by simpa using hb
      have hrec := ih (db ++ committedRows succeeds batch) b hb' c (by simpa using hc)
      rw [List.take_succ_cons, List.flatten_cons, committedRows_append,
        ← List.append_assoc]
      exact hrec

/-- C1: Sequential-batch visibility in opinion drafting.  A case in
batch b observes, through the precedent tools, exactly the table as
committed when its batch started: the initial rows plus the rows of
every successful case of batches before b; that table contains the
opinion of every successful earlier-batch case and, when case ids are
distinct across the run and not already present, no opinion of any case
of batch b or a later batch. -/
theorem C1_sequential_batch_visibility (cases : List CaseUnit)
    (succeeds : CaseUnit → Bool) (size : Nat) (db0 : List OpinionRow)
    (b : Nat) (hb : b < (chunkList size cases).length) (c : CaseUnit)
    (hc : c ∈ (chunkList size cases).get ⟨b, hb⟩) :
    ((c.id, db0 ++ committedRows succeeds (((chunkList size cases).take b).flatten))
        ∈ (process_cases_batch cases succeeds size db0).observations)
    ∧ (∀ c' ∈ ((chunkList size cases).take b).flatten, succeeds c' = true →
        (⟨c'.id⟩ : OpinionRow)
          ∈ db0 ++ committedRows succeeds (((chunkList size cases).take b).flatten))
    ∧ ((cases.map CaseUnit.id).Nodup →
        ∀ c' ∈ ((chunkList size cases).drop b).flatten,
          (⟨c'.id⟩ : OpinionRow) ∉ db0 →
          (⟨c'.id⟩ : OpinionRow)
            ∉ db0 ++ committedRows succeeds (((chunkList size cases).take b).flatten)) := by
  refine ⟨?_, ?_, ?_⟩
  · rw [process_cases_batch, foldl_processOneBatch]
    simp only [List.nil_append]
    exact batchObservations_mem succeeds (chunkList size cases) db0 b hb c hc
  · intro c' hc' hsuc
    apply List.mem_append_right
    rw [committedRows]
    exact List.mem_map_of_mem _ (List.mem_filter.mpr ⟨hc', by simp [hsuc]⟩)
  · intro hnodup c' hc' hdb0 hmem
    rcases List.mem_append.mp hmem with hl | hr
    · exact hdb0 hl
    · rw [committedRows, List.mem_map] at hr
      obtain ⟨c'', hc'', hid⟩ := hr
      have hc''flat : c'' ∈ ((chunkList size cases).take b).flatten :=
        (List.mem_filter.mp hc'').1
      have hid' : c''.id = c'.id := by
        simpa using hid
      have hsplit : ((chunkList size cases).take b).flatten
          ++ ((chunkList size cases).drop b).flatten = cases := by
        rw [← List.flatten_append, List.take_append_drop, chunkList_flatten]
      have hnodup' : ((((chunkList size cases).take b).flatten
          ++ ((chunkList size cases).drop b).flatten).map CaseUnit.id).Nodup := by
        rw [hsplit]
        exact hnodup
      rw [List.map_append] at hnodup'
      have hdisj := List.disjoint_of_nodup_append hnodup'
      exact hdisj (List.mem_map_of_mem _ hc''flat)
        (hid' ▸ List.mem_map_of_mem _ hc')

/-- Witness for C1: three cases in batches of two, case 2 failing; case
3, which runs in the second batch, observes exactly the committed
opinion of case 1 and cannot observe its own. -/
theorem C1_sequential_batch_visibility_witness :
    (((3 : Nat), ([] : List OpinionRow) ++ committedRows (fun c => !(c.id == 2))
        (((chunkList 2 [⟨1⟩, ⟨2⟩, ⟨3⟩]).take 1).flatten))
      ∈ (process_cases_batch [⟨1⟩, ⟨2⟩, ⟨3⟩]
          (fun c => !(c.id == 2)) 2 []).observations)
    ∧ ((⟨1⟩ : OpinionRow) ∈ ([] : List OpinionRow)
        ++ committedRows (fun c => !(c.id == 2))
          (((chunkList 2 [⟨1⟩, ⟨2⟩, ⟨3⟩]).take 1).flatten))
    ∧ ((⟨3⟩ : OpinionRow) ∉ ([] : List OpinionRow)
        ++ committedRows (fun c => !(c.id == 2))
          (((chunkList 2 [⟨1⟩, ⟨2⟩, ⟨3⟩]).take 1).flatten)) :=
  ⟨(C1_sequential_batch_visibility [⟨1⟩, ⟨2⟩, ⟨3⟩] (fun c => !(c.id == 2)) 2 [] 1
      (by simp [chunkList]) ⟨3⟩ (by simp [chunkList])).1,
   (C1_sequential_batch_visibility [⟨1⟩, ⟨2⟩, ⟨3⟩] (fun c => !(c.id == 2)) 2 [] 1
      (by simp [chunkList]) ⟨3⟩ (by simp [chunkList])).2.1 ⟨1⟩
      (by simp [chunkList]) (by decide),
   (C1_sequential_batch_visibility [⟨1⟩, ⟨2⟩, ⟨3⟩] (fun c => !(c.id == 2)) 2 [] 1
      (by simp [chunkList]) ⟨3⟩ (by simp [chunkList])).2.2 (by decide) ⟨3⟩
      (by simp [chunkList]) (by simp)⟩

theorem length_filter_partition {α : Type} (p : α → Bool) (l : List α) :
    (l.filter p).length + (l.filter (fun a => !(p a))).length = l.length := by
  induction l with
  | nil => rfl
  | cons x rest ih =>
    by_cases hx : p x <;>
      simp only [List.filter_cons, hx, Bool.not_true, Bool.not_false, if_pos,
        if_neg, Bool.false_eq_true, not_false_eq_true, List.length_cons] <;>
      simp only [List.length_cons] at * <;> omega

theorem successRows_cons (results : SegmentRow → Except Unit (List CaseRow))
    (s : SegmentRow) (rest : List SegmentRow) :
    successRows results (s :: rest) =
      (match results s with | .ok rows => rows | .error _ => [])
        ++ successRows results rest := by
  simp [successRows]

theorem segLoop_spec (results : SegmentRow → Except Unit (List CaseRow))
    (size : Nat) :
    ∀ (segs : List SegmentRow) (st : SegBatchState),
      ((segLoop results size segs st).casesTable
            ++ (segLoop results size segs st).pending
          = (st.casesTable ++ st.pending) ++ successRows results segs)
      ∧ ((segLoop results size segs st).noCasesSegs
          = st.noCasesSegs ++ segs.filter (segNoCases results))
      ∧ ((segLoop results size segs st).failed
          = st.failed + (segs.filter (segFailed results)).length)
      ∧ ((segLoop results size segs st).created
            + (segLoop results size segs st).pending.length
          = st.created + st.pending.length + (successRows results segs).length) := by
  intro segs
  induction segs with
  | nil =>
    intro st
    simp [segLoop, successRows]
  | cons s rest ih =>
    intro st
    rw [segLoop]
    cases hr : results s with
    | error e =>
      have hspec := ih { st with failed := st.failed + 1 }
      dsimp only at hspec
      have hf : segFailed results s = true := by simp [segFailed, hr]
      have hn : segNoCases results s = false := by simp [segNoCases, hr]
      refine ⟨?_, ?_, ?_, ?_⟩
      · rw [hspec.1, successRows_cons, hr]
        simp
      · rw [hspec.2.1, List.filter_cons, hn]
        simp
      · rw [hspec.2.2.1]
        have hlen : (List.filter (segFailed results) (s :: rest)).length
            = (List.filter (segFailed results) rest).length + 1 := by
          rw [List.filter_cons, hf]
          simp
        omega
      · rw [hspec.2.2.2, successRows_cons, hr]
        simp
    | ok rows =>
      cases rows with
      | nil =>
        have hspec := ih { st with noCasesSegs := st.noCasesSegs ++ [s] }
        dsimp only at hspec
        have hf : segFailed results s = false := by simp [segFailed, hr]
        have hn : segNoCases results s = true := by simp [segNoCases, hr]
        refine ⟨?_, ?_, ?_, ?_⟩
        · rw [hspec.1, successRows_cons, hr]
          simp
        · rw [hspec.2.1, List.filter_cons, hn]
          simp
        · rw [hspec.2.2.1, List.filter_cons, hf]
          simp
        · rw [hspec.2.2.2, successRows_cons, hr]
          simp
      | cons r rs =>
        have hno : segNoCases results s = false := by simp [segNoCases, hr]
        have hfa : segFailed results s = false := by simp [segFailed, hr]
        by_cases hcommit : size ≤ (st.pending ++ r :: rs).length
        · simp only [if_pos hcommit]
          have hspec := ih { st with
            casesTable := st.casesTable ++ (st.pending ++ r :: rs),
            created := st.created + (st.pending ++ r :: rs).length,
            pending := [] }
          dsimp only at hspec
          refine ⟨?_, ?_, ?_, ?_⟩
          · rw [hspec.1, successRows_cons, hr]
            simp [List.append_assoc]
          · rw [hspec.2.1, List.filter_cons, hno]
            simp
          · rw [hspec.2.2.1, List.filter_cons, hfa]
            simp
          · rw [hspec.2.2.2, successRows_cons, hr]
            simp only [List.append_nil, List.length_append, List.length_cons,
              List.length_nil]
            omega
        · simp only [if_neg hcommit]
          have hspec := ih { st with pending := st.pending ++ r :: rs }
          dsimp only at hspec
          refine ⟨?_, ?_, ?_, ?_⟩
          · rw [hspec.1, successRows_cons, hr]
            simp [List.append_assoc]
          · rw [hspec.2.1, List.filter_cons, hno]
            simp
          · rw [hspec.2.2.1, List.filter_cons, hfa]
            simp
          · rw [hspec.2.2.2, successRows_cons, hr]
            simp only [List.length_append, List.length_cons]
            omega

theorem process_segments_batch_spec (db : CasesDb) (segs : List SegmentRow)
    (results : SegmentRow → Except Unit (List CaseRow)) (size : Nat) :
    ((process_segments_batch db segs results size).1.cases
        = db.cases ++ successRows results segs)
    ∧ ((process_segments_batch db segs results size).1.segments
        = markNoCases (segs.filter (segNoCases results)) db.segments)
    ∧ ((process_segments_batch db segs results size).2.1
        = (successRows results segs).length)
    ∧ ((process_segments_batch db segs results size).2.2.1 = segs.length)
    ∧ ((process_segments_batch db segs results size).2.2.2
        = (segs.filter (segFailed results)).length) := by
  have hspec := segLoop_spec results size segs ⟨db.cases, [], [], 0, 0⟩
  dsimp only at hspec
  rw [process_segments_batch]
  refine ⟨?_, ?_, ?_, rfl, ?_⟩
  · have := hspec.1
    simpa using this
  · have := hspec.2.1
    simp only [List.nil_append] at this
    simp [this]
  · have h4 := hspec.2.2.2
    simp only [List.length_nil, Nat.add_zero, Nat.zero_add] at h4
    by_cases hp : (segLoop results size segs ⟨db.cases, [], [], 0, 0⟩).pending.isEmpty
    · by_cases hn : (segLoop results size segs ⟨db.cases, [], [], 0, 0⟩).noCasesSegs.isEmpty
      · simp only [hp, hn, Bool.and_self, if_pos]
        rw [List.isEmpty_iff] at hp
        simp only [hp, List.length_nil] at h4
        simpa using h4
      · simp only [hp, hn, Bool.and_false, Bool.false_eq_true, if_false]
        omega
    · simp only [hp, Bool.false_and, Bool.false_eq_true, if_false]
      omega
  · have := hspec.2.2.1
    simpa using this

theorem process_cases_batch_spec (cases : List CaseUnit)
    (succeeds : CaseUnit → Bool) (size : Nat) (db0 : List OpinionRow) :
    ((process_cases_batch cases succeeds size db0).db
        = db0 ++ committedRows succeeds cases)
    ∧ ((process_cases_batch cases succeeds size db0).created
        = (cases.filter (fun c => succeeds c)).length)
    ∧ ((process_cases_batch cases succeeds size db0).failed
        = (cases.filter (fun c => !(succeeds c))).length) := by
  rw [process_cases_batch, foldl_processOneBatch]
  refine ⟨by simp [chunkList_flatten], ?_, ?_⟩
  · simp [chunkList_flatten, committedRows]
  · simp [chunkList_flatten]

/-- C6: Failure isolation in the batch drivers.  In the opinion
drafting run, when exactly one case fails the other cases are still
committed, the run completes with created equal to the number of cases
minus one and exactly one failure reported; in the case-extraction run,
when exactly one segment fails the run completes over all segments,
reports exactly one failure, creates exactly the successful rows, and
every successful segment's rows are committed. -/
theorem C6_failure_isolation (cases : List CaseUnit)
    (succeeds : CaseUnit → Bool) (size : Nat) (db0 : List OpinionRow)
    (db : CasesDb) (segs : List SegmentRow)
    (results : SegmentRow → Except Unit (List CaseRow)) (sizeSeg : Nat) :
    ((cases.filter (fun c => !(succeeds c))).length = 1 →
        (process_cases_batch cases succeeds size db0).created = cases.length - 1
        ∧ (process_cases_batch cases succeeds size db0).failed = 1
        ∧ ∀ c ∈ cases, succeeds c = true →
            (⟨c.id⟩ : OpinionRow) ∈ (process_cases_batch cases succeeds size db0).db)
    ∧ ((segs.filter (segFailed results)).length = 1 →
        (process_segments_batch db segs results sizeSeg).2.2.2 = 1
        ∧ (process_segments_batch db segs results sizeSeg).2.2.1 = segs.length
        ∧ (process_segments_batch db segs results sizeSeg).2.1
            = (successRows results segs).length
        ∧ ∀ s ∈ segs, ∀ rows, results s = .ok rows →
            ∀ r ∈ rows, r ∈ (process_segments_batch db segs results sizeSeg).1.cases) := by
  constructor
  · intro hone
    have hspec := process_cases_batch_spec cases succeeds size db0
    have hpart := length_filter_partition (fun c => succeeds c) cases
    refine ⟨?_, ?_, ?_⟩
    · rw [hspec.2.1]
      omega
    · rw [hspec.2.2, hone]
    · intro c hc hsuc
      rw [hspec.1]
      apply List.mem_append_right
      rw [committedRows]
      exact List.mem_map_of_mem _ (List.mem_filter.mpr ⟨hc, by simp [hsuc]⟩)
  · intro hone
    have hspec := process_segments_batch_spec db segs results sizeSeg
    refine ⟨?_, hspec.2.2.2.1, hspec.2.2.1, ?_⟩
    · rw [hspec.2.2.2.2, hone]
    · intro s hs rows hrows r hrow
      rw [hspec.1]
      apply List.mem_append_right
      rw [successRows]
      apply List.mem_flatMap.mpr
      refine ⟨s, hs, ?_⟩
      rw [hrows]
      exact hrow

/-- Witness for C6: three opinion cases of which exactly case 2 fails,
and two segments of which exactly segment 1 fails. -/
theorem C6_failure_isolation_witness :
    ((process_cases_batch [⟨1⟩, ⟨2⟩, ⟨3⟩] (fun c => !(c.id == 2)) 2 []).created
        = ([⟨1⟩, ⟨2⟩, ⟨3⟩] : List CaseUnit).length - 1
      ∧ (process_cases_batch [⟨1⟩, ⟨2⟩, ⟨3⟩] (fun c => !(c.id == 2)) 2 []).failed = 1
      ∧ (⟨1⟩ : OpinionRow)
          ∈ (process_cases_batch [⟨1⟩, ⟨2⟩, ⟨3⟩] (fun c => !(c.id == 2)) 2 []).db)
    ∧ ((process_segments_batch ⟨[], []⟩ [⟨1, 1, true, false⟩, ⟨2, 2, true, false⟩]
          (fun s => if s.id == 1 then .error () else .ok [⟨2, 2, [], ""⟩]) 16).2.2.2
        = 1
      ∧ (⟨2, 2, [], ""⟩ : CaseRow)
          ∈ (process_segments_batch ⟨[], []⟩ [⟨1, 1, true, false⟩, ⟨2, 2, true, false⟩]
              (fun s => if s.id == 1 then .error () else .ok [⟨2, 2, [], ""⟩])
              16).1.cases) :=
  ⟨⟨((C6_failure_isolation [⟨1⟩, ⟨2⟩, ⟨3⟩] (fun c => !(c.id == 2)) 2 [] ⟨[], []⟩
        [⟨1, 1, true, false⟩, ⟨2, 2, true, false⟩]
        (fun s => if s.id == 1 then .error () else .ok [⟨2, 2, [], ""⟩]) 16).1
        (by decide)).1,
    ((C6_failure_isolation [⟨1⟩, ⟨2⟩, ⟨3⟩] (fun c => !(c.id == 2)) 2 [] ⟨[], []⟩
        [⟨1, 1, true, false⟩, ⟨2, 2, true, false⟩]
        (fun s => if s.id == 1 then .error () else .ok [⟨2, 2, [], ""⟩]) 16).1
        (by decide)).2.1,
    ((C6_failure_isolation [⟨1⟩, ⟨2⟩, ⟨3⟩] (fun c => !(c.id == 2)) 2 [] ⟨[], []⟩
        [⟨1, 1, true, false⟩, ⟨2, 2, true, false⟩]
        (fun s => if s.id == 1 then .error () else .ok [⟨2, 2, [], ""⟩]) 16).1
        (by decide)).2.2 ⟨1⟩ (by decide) (by decide)⟩,
   ⟨((C6_failure_isolation [⟨1⟩, ⟨2⟩, ⟨3⟩] (fun c => !(c.id == 2)) 2 [] ⟨[], []⟩
        [⟨1, 1, true, false⟩, ⟨2, 2, true, false⟩]
        (fun s => if s.id == 1 then .error () else .ok [⟨2, 2, [], ""⟩]) 16).2
        (by decide)).1,
    ((C6_failure_isolation [⟨1⟩, ⟨2⟩, ⟨3⟩] (fun c => !(c.id == 2)) 2 [] ⟨[], []⟩
        [⟨1, 1, true, false⟩, ⟨2, 2, true, false⟩]
        (fun s => if s.id == 1 then .error () else .ok [⟨2, 2, [], ""⟩]) 16).2
        (by decide)).2.2.2 ⟨2, 2, true, false⟩ (by decide) [⟨2, 2, [], ""⟩]
        rfl ⟨2, 2, [], ""⟩ (by decide)⟩⟩

/-- C5 counterexample: the case-extraction and segment-detection
process_one carry no wall-clock timeout: a hanging invocation makes
process_one itself hang forever, and an invocation a million seconds
long completes normally instead of yielding a timeout failure. -/
theorem C5_no_timeout_outside_opinions :
    casesProcessOne .hangs = none
    ∧ segmentsProcessOne .hangs = none
    ∧ casesProcessOne (.completes 1000000 (.ok [])) = some (.ok []) :=
  ⟨rfl, rfl, rfl⟩

/-- C5 (amended): only the opinion-drafting process_one wraps its
invocation in a hard wall-clock timeout of 600 seconds; its expiry, a
hang, and any raised error all become a per-unit failure rather than a
crash.  The case-extraction and segment-detection process_one convert
raised errors to per-unit failures but pass any duration through with
no timeout. -/
theorem C5_timeout_wrapping (b : CallBehavior OpinionRow) (d : Nat)
    (r : Except Unit OpinionRow) (rc : Except Unit (List CaseRow))
    (rs : Except Unit SegmentRow) :
    ((opinionsProcessOne b).isSome = true)
    ∧ (600 < d → opinionsProcessOne (.completes d r) = some (.error ()))
    ∧ (opinionsProcessOne .hangs = some (.error ()))
    ∧ (opinionsProcessOne (.completes d (.error ())) = some (.error ()))
    ∧ (casesProcessOne (.completes d rc) = some rc)
    ∧ (segmentsProcessOne (.completes d rs) = some rs) := by
  refine ⟨?_, ?_, rfl, ?_, rfl, rfl⟩
  · cases b with
    | hangs => rfl
    | completes d r => by_cases h : 600 < d <;> simp [opinionsProcessOne, h]
  · intro h
    simp [opinionsProcessOne, h]
  · by_cases h : 600 < d <;> simp [opinionsProcessOne, h]

/-- Witness for C5: a 601 second invocation of the opinion stage is a
per-unit timeout failure. -/
theorem C5_timeout_wrapping_witness :
    ((opinionsProcessOne .hangs).isSome = true)
    ∧ opinionsProcessOne (.completes 601 (.ok ⟨1⟩)) = some (.error ()) :=
  ⟨(C5_timeout_wrapping .hangs 601 (.ok ⟨1⟩) (.ok []) (.error ())).1,
   (C5_timeout_wrapping .hangs 601 (.ok ⟨1⟩) (.ok []) (.error ())).2.1
     (by norm_num)⟩

/-- C10: create_opinions main indexes cases[0] while formatting its
status line before the emptiness check runs, so an empty selection
raises IndexError and the graceful no-cases branch is unreachable. -/
theorem C10_empty_selection_index_error {α : Type} (cases : List α) :
    (cases = [] → opinionsMainEmptyCheck cases = .indexError)
    ∧ opinionsMainEmptyCheck cases ≠ .noCasesMessage := by
  constructor
  · intro h
    subst h
    rfl
  · cases cases with
    | nil => simp [opinionsMainEmptyCheck]
    | cons x rest => simp [opinionsMainEmptyCheck]

/-- Witness for C10: the empty selection. -/
theorem C10_empty_selection_index_error_witness :
    opinionsMainEmptyCheck ([] : List Nat) = .indexError
    ∧ opinionsMainEmptyCheck ([] : List Nat) ≠ .noCasesMessage :=
  ⟨(C10_empty_selection_index_error ([] : List Nat)).1 rfl,
   (C10_empty_selection_index_error ([] : List Nat)).2⟩

theorem cases_selection_idempotent (db : CasesDb)
    (results : SegmentRow → Except Unit (List CaseRow)) (size : Nat)
    (hfail : ∀ s ∈ selectPendingSegments db, segFailed results s = false)
    (hseg : ∀ s ∈ selectPendingSegments db, ∀ rows, results s = .ok rows →
      ∀ r ∈ rows, r.segmentId = s.id) :
    selectPendingSegments
      (process_segments_batch db (selectPendingSegments db) results size).1
      = [] := by
  have hspec := process_segments_batch_spec db (selectPendingSegments db) results size
  have hcases := hspec.1
  have hsegs := hspec.2.1
  rw [selectPendingSegments, List.filter_eq_nil_iff]
  intro s' hs'
  rw [hsegs, markNoCases, List.mem_map] at hs'
  obtain ⟨s, hsmem, heq⟩ := hs'
  intro hpred
  rw [hcases] at hpred
  by_cases hms : (((selectPendingSegments db).filter (segNoCases results)).any
      (fun t => t.id == s.id))
  · rw [if_pos hms] at heq
    rw [← heq] at hpred
    simp at hpred
  · rw [if_neg hms] at heq
    rw [← heq] at hpred
    simp only [Bool.and_eq_true] at hpred
    by_cases hsel : (s.hasTranscript
        && !(db.cases.any (fun c => c.segmentId == s.id)) && !s.foundNoCases)
    · have hpend : s ∈ selectPendingSegments db :=
        List.mem_filter.mpr ⟨hsmem, hsel⟩
      cases hr : results s with
      | error e =>
        have := hfail s hpend
        simp [segFailed, hr] at this
      | ok rows =>
        cases rows with
        | nil =>
          apply hms
          rw [List.any_eq_true]
          exact ⟨s, List.mem_filter.mpr ⟨hpend, by simp [segNoCases, hr]⟩, by simp⟩
        | cons r rs =>
          have hrmem : r ∈ db.cases
              ++ successRows results (selectPendingSegments db) := by
            apply List.mem_append_right
            rw [successRows]
            exact List.mem_flatMap.mpr ⟨s, hpend, by rw [hr]; simp⟩
          have hrid : r.segmentId = s.id := hseg s hpend _ hr r (by simp)
          have hany := hpred.1.2
          rw [Bool.not_eq_eq_eq_not, Bool.not_true, List.any_eq_false] at hany
          exact hany r hrmem (by simp [hrid])
    · apply hsel
      simp only [Bool.and_eq_true]
      refine ⟨⟨hpred.1.1, ?_⟩, hpred.2⟩
      have := hpred.1.2
      rw [Bool.not_eq_eq_eq_not, Bool.not_true, List.any_eq_false] at this
      rw [Bool.not_eq_eq_eq_not, Bool.not_true, List.any_eq_false]
      intro c hc
      exact this c (List.mem_append_left _ hc)

theorem episodes_selection_second_run (sdb : SegmentsDb)
    (eresults : EpisodeRow → Option SegmentRow)
    (hnodup : (sdb.episodes.map EpisodeRow.id).Nodup)
    (heff : ∀ e ∈ selectPendingEpisodes sdb, ∀ seg, eresults e = some seg →
      seg.episodeId = e.id) :
    selectPendingEpisodes
        (process_episodes_batch sdb (selectPendingEpisodes sdb) eresults).1
      = (selectPendingEpisodes sdb).filter (fun e => (eresults e).isNone) := by
  conv_rhs => rw [selectPendingEpisodes]
  rw [List.filter_filter]
  rw [process_episodes_batch, selectPendingEpisodes]
  apply List.filter_congr
  intro e he
  simp only [List.any_append, Bool.not_or, Bool.not_eq_true']
  by_cases hOld : sdb.segments.any (fun s => s.episodeId == e.id)
  · simp [hOld]
  · have hOld' : (sdb.segments.any (fun s => s.episodeId == e.id)) = false := by
      simpa using hOld
    have hpend : e ∈ selectPendingEpisodes sdb := by
      rw [selectPendingEpisodes, List.mem_filter]
      exact ⟨he, by simp [hOld']⟩
    simp only [hOld', Bool.not_false, Bool.and_true, Bool.true_and]
    cases her : eresults e with
    | some seg =>
      have hmem : seg ∈ (selectPendingEpisodes sdb).filterMap eresults :=
        List.mem_filterMap.mpr ⟨e, hpend, her⟩
      have hid : seg.episodeId = e.id := heff e hpend seg her
      have : (((selectPendingEpisodes sdb).filterMap eresults).any
          (fun s => s.episodeId == e.id)) = true := by
        rw [List.any_eq_true]
        exact ⟨seg, hmem, by simp [hid]⟩
      simp [this]
    | none =>
      have : (((selectPendingEpisodes sdb).filterMap eresults).any
          (fun s => s.episodeId == e.id)) = false := by
        rw [List.any_eq_false]
        intro seg hseg
        rw [List.mem_filterMap] at hseg
        obtain ⟨e', he', her'⟩ := hseg
        have hid' : seg.episodeId = e'.id :=
          heff e' he' seg her'
        simp only [hid', beq_iff_eq]
        intro hee
        have hmem' : e' ∈ sdb.episodes :=
          (List.mem_filter.mp (by rwa [selectPendingEpisodes] at he')).1
        have : e' = e := List.inj_on_of_nodup_map hnodup hmem' he hee
        rw [this] at her'
        rw [her'] at her
        cases her
      simp [this]

/-- C2 counterexample: one episode, detection runs without error and
finds no Fantasy Court segment; nothing marks the episode, so a second
run of the episode selection query returns it again instead of an empty
set. -/
theorem C2_segment_selection_not_idempotent :
    (selectPendingEpisodes
        (process_episodes_batch ⟨[⟨1⟩], []⟩
          (selectPendingEpisodes ⟨[⟨1⟩], []⟩) (fun _ => none)).1
      = [⟨1⟩])
    ∧ selectPendingEpisodes
        (process_episodes_batch ⟨[⟨1⟩], []⟩
          (selectPendingEpisodes ⟨[⟨1⟩], []⟩) (fun _ => none)).1
      ≠ [] := by
  refine ⟨?_, ?_⟩ <;> decide

/-- C2 (amended): idempotent selection holds for the case-extraction
stage: after a complete run with no failures over the offered segments,
every offered segment bears either committed case rows or the
found_no_cases flag, and the second segment selection is empty.  For the
segment-detection stage there is no no-output marker: the second episode
selection returns exactly the episodes whose detection produced no
segment. -/
theorem C2_selection_idempotence (db : CasesDb)
    (results : SegmentRow → Except Unit (List CaseRow)) (size : Nat)
    (sdb : SegmentsDb) (eresults : EpisodeRow → Option SegmentRow) :
    ((∀ s ∈ selectPendingSegments db, segFailed results s = false) →
      (∀ s ∈ selectPendingSegments db, ∀ rows, results s = .ok rows →
        ∀ r ∈ rows, r.segmentId = s.id) →
      selectPendingSegments
        (process_segments_batch db (selectPendingSegments db) results size).1
        = [])
    ∧ (((sdb.episodes.map EpisodeRow.id).Nodup) →
      (∀ e ∈ selectPendingEpisodes sdb, ∀ seg, eresults e = some seg →
        seg.episodeId = e.id) →
      selectPendingEpisodes
          (process_episodes_batch sdb (selectPendingEpisodes sdb) eresults).1
        = (selectPendingEpisodes sdb).filter (fun e => (eresults e).isNone)) :=
  ⟨fun h1 h2 => cases_selection_idempotent db results size h1 h2,
   fun h1 h2 => episodes_selection_second_run sdb eresults h1 h2⟩

/-- Witness for C2: a segment whose extraction finds no cases is
flagged and not re-offered; an episode whose detection finds nothing is
re-offered. -/
theorem C2_selection_idempotence_witness :
    (selectPendingSegments
        (process_segments_batch ⟨[⟨1, 1, true, false⟩], []⟩
          (selectPendingSegments ⟨[⟨1, 1, true, false⟩], []⟩)
          (fun _ => .ok []) 16).1
      = [])
    ∧ (selectPendingEpisodes
          (process_episodes_batch ⟨[⟨1⟩], []⟩
            (selectPendingEpisodes ⟨[⟨1⟩], []⟩) (fun _ => none)).1
        = (selectPendingEpisodes ⟨[⟨1⟩], []⟩).filter
            (fun e => ((fun _ => (none : Option SegmentRow)) e).isNone)) :=
  ⟨(C2_selection_idempotence ⟨[⟨1, 1, true, false⟩], []⟩ (fun _ => .ok []) 16
      ⟨[⟨1⟩], []⟩ (fun _ => none)).1
      (fun s _ => rfl)
      (fun s _ rows hr r hrow => by
        cases hr
        cases hrow),
   (C2_selection_idempotence ⟨[⟨1, 1, true, false⟩], []⟩ (fun _ => .ok []) 16
      ⟨[⟨1⟩], []⟩ (fun _ => none)).2
      (by decide)
      (fun e _ seg hseg => by cases hseg)⟩
